import Mathlib

/-!
Verification of the preemption victim-selection core
(`pkg/scheduler/objects/preemption.go`).

The file shallowly embeds the Go source: snapshots of queues form an arena
keyed by queue path (capturing the pointer aliasing of parent links through
path lookups), resource vectors are association lists from resource name to
signed integer quantity, and every stateful Go function becomes explicit
state passing.  The resource algebra (`pkg/common/resources`) and the small
allocation/node accessors are not part of the sources being verified, so they
are modelled from the specification text; each such definition is marked
`Modelled from the spec:` in its doc comment.  Everything else is translated
from `preemption.go` directly.
-/

set_option autoImplicit false

namespace YK

/-- Modelled from the spec: a resource vector is a mapping from string
resource name to signed integer quantity (the `resources` package is not among
the sources).  Represented as an association list; lookup takes the first
matching key and treats missing keys as zero. -/
structure Res where
  res : List (String × Int)
deriving Repr, DecidableEq

/-- Modelled from the spec: component lookup; missing keys read as zero. -/
def Res.get (r : Res) (k : String) : Int :=
  match r.res.find? (fun p => p.1 == k) with
  | some p => p.2
  | none => 0

/-- Modelled from the spec: key presence test. -/
def Res.hasKey (r : Res) (k : String) : Bool :=
  (r.res.find? (fun p => p.1 == k)).isSome

/-- The empty resource vector (`resources.Zero` and `resources.NewResource()`). -/
def Res.zero : Res := ⟨[]⟩

/-- Replace the first binding of a key, or append a fresh binding. -/
def setKey : List (String × Int) → String → Int → List (String × Int)
  | [], k, v => [(k, v)]
  | p :: ps, k, v => if p.1 == k then (k, v) :: ps else p :: setKey ps k v

/-- Add `v` to the binding of `k` (creating it when missing). -/
def Res.addPair (r : Res) (k : String) (v : Int) : Res :=
  ⟨setKey r.res k (r.get k + v)⟩

/-- Modelled from the spec: `AddTo` adds every component of the addend into
the receiver, creating missing components.  `resources.Add` returns the same
value functionally. -/
def Res.addTo (r o : Res) : Res :=
  o.res.foldl (fun acc p => acc.addPair p.1 p.2) r

/-- Modelled from the spec: `SubFrom` subtracts every component of the
argument from the receiver, creating missing components. -/
def Res.subFrom (r o : Res) : Res :=
  o.res.foldl (fun acc p => acc.addPair p.1 (-p.2)) r

/-- Modelled from the spec: `SubOnlyExisting` subtracts only over keys present
in the minuend; keys present only on the right are ignored. -/
def Res.subOnlyExisting (a b : Res) : Res :=
  ⟨a.res.map (fun p => (p.1, p.2 - b.get p.1))⟩

/-- Modelled from the spec: `SubEliminateNegative` subtracts over the union of
keys and truncates each component at zero. -/
def Res.subEliminateNegative (a b : Res) : Res :=
  ⟨a.res.map (fun p => (p.1, max 0 (p.2 - b.get p.1))) ++
    (b.res.filter (fun p => !(a.hasKey p.1))).map (fun p => (p.1, max 0 (-p.2)))⟩

/-- Modelled from the spec: `FitIn` means every component of the request is at
most the corresponding component of the subject (missing keys are zero). -/
def Res.fitIn (avail req : Res) : Bool :=
  req.res.all (fun p => req.get p.1 ≤ avail.get p.1)

/-- Modelled from the spec: element-wise greater-or-equal over the union of
keys, missing keys read as zero (`resources.StrictlyGreaterThanOrEquals`). -/
def Res.geAll (a b : Res) : Bool :=
  a.res.all (fun p => b.get p.1 ≤ a.get p.1) &&
    b.res.all (fun p => b.get p.1 ≤ a.get p.1)

/-- Modelled from the spec: strict vector order, greater-or-equal on every
component of the union with at least one strictly greater
(`resources.StrictlyGreaterThan`). -/
def Res.gtStrict (a b : Res) : Bool :=
  a.geAll b &&
    (a.res.any (fun p => b.get p.1 < a.get p.1) ||
      b.res.any (fun p => b.get p.1 < a.get p.1))

/-- Modelled from the spec: `StrictlyGreaterThanOnlyExisting` holds when the
left operand exceeds the right on some component present in the left operand;
its negation is exactly "the right covers the left on every component present
in the left", which is how the spec reads it at every use site. -/
def Res.sgtOnlyExisting (a b : Res) : Bool :=
  a.res.any (fun p => b.get p.1 < a.get p.1)

/-- Modelled from the spec: `IsEmpty` means no components or all zero. -/
def Res.isEmpty (r : Res) : Bool :=
  r.res.all (fun p => p.2 == 0)

/-- Emptiness of a possibly-nil resource (Go treats a nil pointer as empty). -/
def oIsEmpty (r : Option Res) : Bool :=
  match r with
  | none => true
  | some rr => rr.isEmpty

/-- Modelled from the spec: component-wise minimum over the union of keys; a
key present on one side only keeps its value; a nil side acts as the neutral
element (`resources.ComponentWiseMin`). -/
def Res.cwMin (a b : Res) : Res :=
  ⟨a.res.map (fun p => (p.1, if b.hasKey p.1 then min p.2 (b.get p.1) else p.2)) ++
    b.res.filter (fun p => !(a.hasKey p.1))⟩

/-- `ComponentWiseMin` against a possibly-nil right operand. -/
def Res.cwMinO (a : Res) (b : Option Res) : Res :=
  match b with
  | none => a
  | some bb => a.cwMin bb

/-- Modelled from the spec: `ComponentWiseMinOnlyExisting` derives the minimum
only for resource types present in the left operand; keys missing on the right
keep the left value, and a nil right operand leaves the left unchanged. -/
def Res.cwMinOnlyExisting (a : Res) (b : Option Res) : Res :=
  match b with
  | none => a
  | some bb =>
    ⟨a.res.map (fun p => (p.1, if bb.hasKey p.1 then min p.2 (bb.get p.1) else p.2))⟩

/-- Modelled from the spec: `MergeIfNotPresent` takes each key from the
primary operand, else from the fallback. -/
def Res.mergeIfNotPresent (a : Res) (b : Option Res) : Res :=
  match b with
  | none => a
  | some bb => ⟨a.res ++ bb.res.filter (fun p => !(a.hasKey p.1))⟩

/-- Modelled from the spec: zero-filled equality over the union of keys
(`resources.EqualsOrEmpty`: strict equality, with empties equal). -/
def Res.equalsZF (a b : Res) : Bool :=
  a.res.all (fun p => a.get p.1 == b.get p.1) &&
    b.res.all (fun p => a.get p.1 == b.get p.1)

/-- `EqualsOrEmpty` on possibly-nil operands (nil acts as the empty vector). -/
def eqOrEmptyO (a b : Option Res) : Bool :=
  Res.equalsZF (a.getD Res.zero) (b.getD Res.zero)

/-- Association-list lookup by string key (Go map read). -/
def alookup {α : Type} (m : List (String × α)) (k : String) : Option α :=
  (m.find? (fun p => p.1 == k)).map (fun p => p.2)

/-- strings.HasPrefix: `s` starts with `pre` (decided on the character lists,
which computes by structural recursion). -/
def strHasPrefix (s pre : String) : Bool :=
  pre.data.isPrefixOf s.data

/-- Lexicographic character-list comparison backing the Go `<` on strings. -/
def charListLt : List Char → List Char → Bool
  | [], [] => false
  | [], _ :: _ => true
  | _ :: _, [] => false
  | a :: as, b :: bs =>
    if a.toNat < b.toNat then true
    else if b.toNat < a.toNat then false
    else charListLt as bs

/-- Go string comparison `s < t`, lexicographic. -/
def strLess (s t : String) : Bool :=
  charListLt s.data t.data

/-- Modelled from the spec: the attributes of an `Allocation` consumed by the
preemption core (the allocation type lives outside the verified sources).
`createTime` and `preemptCheckTime` are wall-clock instants modelled as
integers; `requiredNode` is empty when no node is required. -/
structure Alloc where
  allocationKey : String
  applicationID : String
  nodeID : String
  allocatedResource : Res
  createTime : Int
  originator : Bool
  allowPreemptSelf : Bool
  allowPreemptOther : Bool
  requiredNode : String
  hasTriggeredPreemption : Bool
  preemptCheckTime : Int
deriving Repr, DecidableEq

/-- QueuePreemptionSnapshot: one node of the snapshot tree.  The Go struct
holds pointers to the parent snapshot and to the ask-queue snapshot; in the
arena model both become queue paths resolved through the arena, which keeps
the aliasing of the Go pointers (mutating a parent through one child is seen
through every other child). -/
structure Snap where
  parent : Option String
  queuePath : String
  leaf : Bool
  allocatedResource : Res
  preemptingResource : Res
  maxResource : Res
  guaranteedResource : Res
  potentialVictims : List Alloc
  askQueue : Option String
deriving Repr, DecidableEq

/-- The snapshot arena: the `map[string]*QueuePreemptionSnapshot` of the Go
code, with a fixed iteration order (Go map iteration order is unspecified;
the embedding fixes it to list order). -/
structure Arena where
  snaps : List (String × Snap)
deriving Repr, DecidableEq

def Arena.find? (a : Arena) (p : String) : Option Snap :=
  alookup a.snaps p

/-- Apply `f` to the snapshot stored at path `p` (Go mutates it in place). -/
def Arena.update (a : Arena) (p : String) (f : Snap → Snap) : Arena :=
  ⟨a.snaps.map (fun e => if e.1 == p then (e.1, f e.2) else e)⟩

/-- The chain of queue paths from a snapshot up to the root, following
parent links.  Fuel bounds the walk; any fuel of at least the tree height
yields the full chain (Go trees are finite and acyclic). -/
def chainOfAux (a : Arena) : Nat → Option String → List String
  | 0, _ => []
  | _, none => []
  | fuel + 1, some p =>
    match a.find? p with
    | none => []
    | some s => p :: chainOfAux a fuel s.parent

def chainOf (a : Arena) (p : String) : List String :=
  chainOfAux a (a.snaps.length + 1) (some p)

/-- AddAllocation adds an allocation to this snapshot's resource usage and,
recursively, to every ancestor (parent first, as in the source). -/
def addAllocationChain (a : Arena) : List String → Res → Arena
  | [], _ => a
  | p :: rest, r =>
    (addAllocationChain a rest r).update p
      (fun s => { s with allocatedResource := s.allocatedResource.addTo r })

/-- RemoveAllocation removes an allocation from this snapshot's resource usage
and, recursively, from every ancestor (parent first, as in the source). -/
def removeAllocationChain (a : Arena) : List String → Res → Arena
  | [], _ => a
  | p :: rest, r =>
    (removeAllocationChain a rest r).update p
      (fun s => { s with allocatedResource := s.allocatedResource.subFrom r })

/-- GetRemainingGuaranteedResource, translated clause by clause from the
source.  The chain argument is the parent chain of the receiver; `none`
stands for the Go nil result.  The ask-queue back reference is resolved
through the arena (it is a pointer in Go); when the referenced path is absent
the reference behaves as unset, a state unreachable for well-formed
snapshots. -/
def getRemainingGuaranteed (a : Arena) : List String → Option Res
  | [] => none
  | p :: rest =>
    match a.find? p with
    | none => none
    | some qps =>
      let parent := getRemainingGuaranteed a rest
      if oIsEmpty parent && qps.guaranteedResource.isEmpty then none
      else
        let used := qps.allocatedResource.subOnlyExisting qps.preemptingResource
        let remaining := qps.guaranteedResource.subOnlyExisting used
        match qps.askQueue with
        | none => some (remaining.cwMinO parent)
        | some aqPath =>
          match a.find? aqPath with
          | none => some (remaining.cwMinO parent)
          | some aq =>
            if aq.queuePath == qps.queuePath && !remaining.isEmpty then
              some (remaining.mergeIfNotPresent parent)
            else
              let aqUsed := aq.allocatedResource.subOnlyExisting aq.preemptingResource
              let aqRemaining := aq.guaranteedResource.subOnlyExisting aqUsed
              if !remaining.isEmpty && strHasPrefix aq.queuePath qps.queuePath
                  && !aqRemaining.isEmpty then
                none
              else
                some (remaining.cwMinO parent)

/-- GetPreemptableResource, translated clause by clause from the source:
nothing to preempt without usage; keep only strictly over-utilized resource
types; an empty verdict short-circuits, otherwise take the minimum with the
parent only over the resource types kept here. -/
def getPreemptableResource (a : Arena) : List String → Option Res
  | [] => none
  | p :: rest =>
    match a.find? p with
    | none => none
    | some qps =>
      if qps.allocatedResource.isEmpty then none
      else
        let parentP := getPreemptableResource a rest
        let actual := qps.allocatedResource.subOnlyExisting qps.preemptingResource
        let actual2 := actual.subOnlyExisting qps.guaranteedResource
        let preemptable : Res := ⟨actual2.res.filter (fun q => 0 < q.2)⟩
        if preemptable.isEmpty then some preemptable
        else some (preemptable.cwMinOnlyExisting parentP)

/-- Duplicate builds a fresh map with independent clones of every resource
vector.  Under value semantics the result is the same arena; the reference
model below (`RSnap`, `Store`) captures the store-level content of the clone
step, which this value-level model cannot distinguish. -/
def duplicateQueueSnapshots (a : Arena) : Arena := a

/-- Modelled from the spec: the per-node queries consumed by the working-state
builder.  `capacity` backs `FitInNode` (fit at maximum capacity),
`reservation` is the allocation key the node is reserved for, if any. -/
structure Node where
  nodeID : String
  schedulable : Bool
  reservation : Option String
  capacity : Res
  available : Res
deriving Repr, DecidableEq

/-- The preemptor context for one ask.  `allocationsByQueue` is the snapshot
map produced by `FindEligiblePreemptionVictims` (external), `iterator` the
node list visited by the node iterator. -/
structure Preemptor where
  queuePath : String
  ask : Alloc
  preemptionDelay : Int
  iterator : List Node
  nodesTried : Bool
  allocationsByQueue : Arena
deriving Repr, DecidableEq

/-- Default 15 second throttle between preemption attempts for one ask
(time modelled in seconds). -/
def preemptAttemptFrequency : Int := 15

/-- CheckPreconditions, translated check by check.  Returns the verdict and
the (possibly updated) ask: on success the ask's preemption check time is set
to `now`. -/
def CheckPreconditions (ask : Alloc) (preemptionDelay : Int) (now : Int) :
    Bool × Alloc :=
  if !ask.allowPreemptOther then (false, ask)
  else if ask.hasTriggeredPreemption then (false, ask)
  else if ask.requiredNode != "" then (false, ask)
  else if now < ask.createTime + preemptionDelay then (false, ask)
  else if now < ask.preemptCheckTime + preemptAttemptFrequency then (false, ask)
  else (true, { ask with preemptCheckTime := now })

/-- The per-node victim comparator of `sortVictimsForPreemption`: allocations
that allow preemption of self first, then non-originators, then newest
first. -/
def victimLess (l r : Alloc) : Bool :=
  if l.allowPreemptSelf && !r.allowPreemptSelf then true
  else if r.allowPreemptSelf && !l.allowPreemptSelf then false
  else if l.originator && !r.originator then false
  else if r.originator && !l.originator then true
  else r.createTime < l.createTime

/-- scoreAllocation: bitmask score, lower is a better victim. -/
def scoreAllocation (a : Alloc) : Nat :=
  (if a.originator then 2 ^ 33 else 0) + (if !a.allowPreemptSelf then 2 ^ 34 else 0)

/-- compareAllocationLess: global victim order by score, ties broken by later
creation time first. -/
def compareAllocationLess (l r : Alloc) : Bool :=
  if scoreAllocation l != scoreAllocation r then
    decide (scoreAllocation l < scoreAllocation r)
  else
    decide (r.createTime < l.createTime)

/-- Stable insertion used to model Go's `sort.SliceStable`: an element moves
left past exactly the elements it is strictly less than. -/
def stableInsert {α : Type} (less : α → α → Bool) (x : α) : List α → List α
  | [] => [x]
  | y :: ys => if less x y then x :: y :: ys else y :: stableInsert less x ys

/-- Stable sort (insertion sort), modelling `sort.SliceStable`. -/
def stableSort {α : Type} (less : α → α → Bool) (l : List α) : List α :=
  l.foldl (fun acc x => stableInsert less x acc) []

/-- Append a victim to the per-node allocation map entry, creating the entry
when absent (`allocationsByNode[nodeID] = append(allocations, allocation)`). -/
def byNodeAppend (m : List (String × List Alloc)) (k : String) (v : Alloc) :
    List (String × List Alloc) :=
  match alookup m k with
  | some _ => m.map (fun e => if e.1 == k then (e.1, e.2 ++ [v]) else e)
  | none => m ++ [(k, [v])]

/-- Set a key in a string-keyed association list (Go map write). -/
def aset {α : Type} (m : List (String × α)) (k : String) (v : α) :
    List (String × α) :=
  match alookup m k with
  | some _ => m.map (fun e => if e.1 == k then (e.1, v) else e)
  | none => m ++ [(k, v)]

/-- Remove a key from a string-keyed association list (Go `delete`). -/
def adelete {α : Type} (m : List (String × α)) (k : String) :
    List (String × α) :=
  m.filter (fun e => e.1 != k)

/-- The lazily-built working structures of `initWorkingState`. -/
structure WorkingState where
  allocationsByNode : List (String × List Alloc)
  queueByAlloc : List (String × String)
  nodeAvailableMap : List (String × Res)
deriving Repr, DecidableEq

/-- First phase of `initWorkingState`: fold every queue's potential victims
into the by-node and by-allocation maps. -/
def buildVictimMaps :
    List (String × Snap) →
    List (String × List Alloc) × List (String × String) → List (String × List Alloc) × List (String × String)
  | [], acc => acc
  | (qp, s) :: rest, acc =>
    let folded := s.potentialVictims.foldl
      (fun (acc2 : List (String × List Alloc) × List (String × String)) v =>
        (byNodeAppend acc2.1 v.nodeID v, aset acc2.2 v.allocationKey qp))
      acc
    buildVictimMaps rest folded

/-- A node is dropped from consideration when it is unschedulable, reserved
for a different allocation, or cannot fit the ask even at full capacity. -/
def nodeUnusable (n : Node) (askKey : String) (askRes : Res) : Bool :=
  !n.schedulable ||
    (n.reservation.isSome && !(n.reservation == some askKey)) ||
    !(n.capacity.fitIn askRes)

/-- Node-iterator walk of `initWorkingState`: drop victims of unusable nodes,
record available resources of usable ones. -/
def walkNodes (askKey : String) (askRes : Res) :
    List Node →
    List (String × List Alloc) × List (String × Res) → List (String × List Alloc) × List (String × Res)
  | [], acc => acc
  | n :: rest, (byNode, availMap) =>
    if nodeUnusable n askKey askRes then
      walkNodes askKey askRes rest (adelete byNode n.nodeID, availMap)
    else
      walkNodes askKey askRes rest (byNode, aset availMap n.nodeID n.available)

/-- initWorkingState: build the three per-cycle maps and sort each node's
victim list with the per-node order. -/
def initWorkingState (p : Preemptor) : WorkingState :=
  let (byNode, byAlloc) := buildVictimMaps p.allocationsByQueue.snaps ([], [])
  let (byNode2, availMap) :=
    walkNodes p.ask.allocationKey p.ask.allocatedResource p.iterator (byNode, [])
  let byNode3 := byNode2.map (fun e => (e.1, stableSort victimLess e.2))
  { allocationsByNode := byNode3, queueByAlloc := byAlloc, nodeAvailableMap := availMap }

/-- Inner loop of `checkPreemptionQueueGuarantees`: remove one queue's
potential victims in turn, returning early as soon as the ask queue's
remaining guarantee is non-nil and non-negative. -/
def cpqgVictims (queuePath pathQ : String) :
    List Alloc → Arena → Arena × Bool
  | [], a => (a, false)
  | v :: vs, a =>
    let a1 := removeAllocationChain a (chainOf a pathQ) v.allocatedResource
    let remaining := getRemainingGuaranteed a1 (chainOf a1 queuePath)
    if remaining.isSome && Res.geAll (remaining.getD Res.zero) Res.zero then
      (a1, true)
    else
      cpqgVictims queuePath pathQ vs a1

/-- Outer loop of `checkPreemptionQueueGuarantees` over the snapshot map. -/
def cpqgQueues (queuePath : String) :
    List (String × Snap) → Arena → Bool
  | [], _ => false
  | (pq, s) :: rest, a =>
    match cpqgVictims queuePath pq s.potentialVictims a with
    | (_, true) => true
    | (a1, false) => cpqgQueues queuePath rest a1

/-- checkPreemptionQueueGuarantees: on a duplicated snapshot tree, add the ask
to its queue, then remove every potential victim in turn, succeeding if the
ask queue's remaining guarantee ever becomes non-nil and non-negative. -/
def checkPreemptionQueueGuarantees (p : Preemptor) : Bool :=
  let queues := duplicateQueueSnapshots p.allocationsByQueue
  match queues.find? p.queuePath with
  | none => false
  | some _ =>
    let a1 := addAllocationChain queues (chainOf queues p.queuePath)
      p.ask.allocatedResource
    cpqgQueues p.queuePath queues.snaps a1

/-- State threaded through the first pass of `calculateVictimsByNode`. -/
structure P1State where
  arena : Arena
  avail : Res
  head : List Alloc
  tail : List Alloc
deriving Repr, DecidableEq

/-- First pass of `calculateVictimsByNode`: partition victims into a head
list (reduces the node shortfall) and a tail list (kept as last resort),
simulating queue-guarantee accounting on the duplicated snapshots and
breaking out as soon as the ask queue would overshoot its own guarantee. -/
def cvnPass1 (askRes : Res) (queuePath : String)
    (qba : List (String × String)) :
    List Alloc → P1State → P1State
  | [], st => st
  | v :: vs, st =>
    match alookup qba v.allocationKey with
    | none => cvnPass1 askRes queuePath qba vs st
    | some qvPath =>
      match st.arena.find? qvPath with
      | none => cvnPass1 askRes queuePath qba vs st
      | some _ =>
        let oldRemaining := getRemainingGuaranteed st.arena (chainOf st.arena qvPath)
        let a1 := removeAllocationChain st.arena (chainOf st.arena qvPath)
          v.allocatedResource
        let preemptable := getPreemptableResource a1 (chainOf a1 qvPath)
        if Res.geAll (preemptable.getD Res.zero) Res.zero &&
            (oldRemaining.isNone ||
              Res.gtStrict Res.zero (oldRemaining.getD Res.zero)) then
          let a2 := addAllocationChain a1 (chainOf a1 queuePath) v.allocatedResource
          let askNewRem := getRemainingGuaranteed a2 (chainOf a2 queuePath)
          if askNewRem.isSome && Res.gtStrict Res.zero (askNewRem.getD Res.zero) then
            let aUndo := addAllocationChain
              (removeAllocationChain a2 (chainOf a2 queuePath) v.allocatedResource)
              (chainOf a2 qvPath) v.allocatedResource
            { st with arena := aUndo }
          else
            let shortfall := askRes.subEliminateNegative st.avail
            let newAvailable := st.avail.addTo v.allocatedResource
            let newShortfall := askRes.subEliminateNegative newAvailable
            if Res.equalsZF shortfall newShortfall then
              let aUndo := addAllocationChain
                (removeAllocationChain a2 (chainOf a2 queuePath) v.allocatedResource)
                (chainOf a2 qvPath) v.allocatedResource
              cvnPass1 askRes queuePath qba vs
                { st with arena := aUndo, tail := st.tail ++ [v] }
            else
              cvnPass1 askRes queuePath qba vs
                { arena := a2, avail := newAvailable, head := st.head ++ [v],
                  tail := st.tail }
        else
          let aBack := addAllocationChain a1 (chainOf a1 qvPath) v.allocatedResource
          cvnPass1 askRes queuePath qba vs { st with arena := aBack }

/-- State threaded through the second pass of `calculateVictimsByNode`. -/
structure P2State where
  arena : Arena
  avail : Res
  index : Int
  results : List Alloc
deriving Repr, DecidableEq

/-- Second pass of `calculateVictimsByNode`: re-validate queue constraints in
the fixed order, accumulate the committed victims, and record the position of
the first victim whose prefix makes the ask fit on the node. -/
def cvnPass2 (askRes : Res) (qba : List (String × String)) :
    List Alloc → P2State → P2State
  | [], st => st
  | v :: vs, st =>
    match alookup qba v.allocationKey with
    | none => cvnPass2 askRes qba vs st
    | some qvPath =>
      match st.arena.find? qvPath with
      | none => cvnPass2 askRes qba vs st
      | some _ =>
        let oldRemaining := getRemainingGuaranteed st.arena (chainOf st.arena qvPath)
        let a1 := removeAllocationChain st.arena (chainOf st.arena qvPath)
          v.allocatedResource
        let preemptable := getPreemptableResource a1 (chainOf a1 qvPath)
        if Res.geAll (preemptable.getD Res.zero) Res.zero &&
            (oldRemaining.isNone ||
              Res.gtStrict Res.zero (oldRemaining.getD Res.zero)) then
          let avail1 := st.avail.addTo v.allocatedResource
          let index1 :=
            if avail1.fitIn askRes && st.index < 0 then
              Int.ofNat st.results.length
            else st.index
          cvnPass2 askRes qba vs
            { arena := a1, avail := avail1, index := index1,
              results := st.results ++ [v] }
        else
          let aBack := addAllocationChain a1 (chainOf a1 qvPath) v.allocatedResource
          cvnPass2 askRes qba vs { st with arena := aBack }

/-- calculateVictimsByNode: fast path when the node already fits, otherwise
two passes over the potential victims.  Returns the prefix index and the
ordered victim list; `(-1, none)` marks the node unusable and `(-1, some [])`
means no preemption is needed. -/
def calculateVictimsByNode (p : Preemptor) (qba : List (String × String))
    (nodeAvailable : Res) (potentialVictims : List Alloc) :
    Int × Option (List Alloc) :=
  if nodeAvailable.fitIn p.ask.allocatedResource then (-1, some [])
  else
    let aq := duplicateQueueSnapshots p.allocationsByQueue
    match aq.find? p.queuePath with
    | none => (-1, none)
    | some _ =>
      let st1 := cvnPass1 p.ask.allocatedResource p.queuePath qba potentialVictims
        ⟨aq, nodeAvailable, [], []⟩
      let headList := st1.head ++ st1.tail
      if headList.isEmpty then (-1, none)
      else
        let aq2 := duplicateQueueSnapshots p.allocationsByQueue
        match aq2.find? p.queuePath with
        | none => (-1, none)
        | some _ =>
          let st2 := cvnPass2 p.ask.allocatedResource qba headList
            ⟨aq2, nodeAvailable, -1, []⟩
          if st2.index < 0 then (-1, none)
          else (st2.index, some st2.results)

/-- A per-node predicate-check descriptor (`si.PreemptionPredicatesArgs`). -/
structure PredArgs where
  allocationKey : String
  nodeID : String
  preemptKeys : List String
  startIndex : Int
deriving Repr, DecidableEq

/-- The outcome of the predicate coordinator as consumed by `tryNodes`: the
chosen node and the victims of the winning result.  The coordinator's fan-out
to the external oracle is concurrent and external, so `TryPreemption` below is
parameterised over this function; `noPluginOracle` is its deterministic
instance when no resource-manager plugin is registered. -/
def Oracle : Type :=
  List PredArgs → List (String × List Alloc) → Option (String × List Alloc)

/-- The sort order of predicate checks: ascending start index, ties broken by
node identifier. -/
def predLess (x y : PredArgs) : Bool :=
  if x.startIndex == y.startIndex then strLess x.nodeID y.nodeID
  else x.startIndex < y.startIndex

/-- Modelled from the spec: `populateVictims` fills the winning result's
victims from the per-node candidate list, slicing at the returned index; a
missing node entry or an out-of-range index voids the result. -/
def populateVictims (vbn : List (String × List Alloc)) (nodeID : String)
    (index : Int) : Option (List Alloc) :=
  match alookup vbn nodeID with
  | none => none
  | some l =>
    if index ≥ Int.ofNat l.length then none
    else some (l.take (index + 1).toNat)

/-- checkPreemptionPredicates when no resource-manager callback plugin is
registered: sort the checks, assume the first succeeds, and populate its
victims. -/
def noPluginOracle : Oracle := fun checks vbn =>
  match stableSort predLess checks with
  | [] => none
  | c :: _ =>
    match populateVictims vbn c.nodeID c.startIndex with
    | none => none
    | some vs => some (c.nodeID, vs)

/-- Per-node loop of `tryNodes`: compute the victim list of every candidate
node, record it, and emit a predicate-check descriptor when there are victims
or scheduling has not yet been tried. -/
def buildChecks (p : Preemptor) (ws : WorkingState) :
    List (String × Res) → List PredArgs × List (String × List Alloc)
  | [] => ([], [])
  | (nid, nodeAvailable) :: rest =>
    let allocations := (alookup ws.allocationsByNode nid).getD []
    let r := calculateVictimsByNode p ws.queueByAlloc nodeAvailable allocations
    let acc := buildChecks p ws rest
    match r.2 with
    | none => acc
    | some victims =>
      let vbn := (nid, victims) :: acc.2
      if victims.length > 0 || !p.nodesTried then
        ({ allocationKey := p.ask.allocationKey, nodeID := nid,
           preemptKeys := victims.map (fun v => v.allocationKey),
           startIndex := r.1 } :: acc.1, vbn)
      else (acc.1, vbn)

/-- tryNodes: build the candidate set and hand it to the predicate
coordinator. -/
def tryNodes (p : Preemptor) (ws : WorkingState) (po : Oracle) :
    Option (String × List Alloc) :=
  let built := buildChecks p ws ws.nodeAvailableMap
  po built.1 built.2

/-- Removal of the already-chosen node victims at the start of
`calculateAdditionalVictims`, also collecting the seen keys. -/
def cavRemoveSeen (qba : List (String × String)) :
    List Alloc → Arena × List String → Arena × List String
  | [], acc => acc
  | v :: vs, (a, seen) =>
    match alookup qba v.allocationKey with
    | none => cavRemoveSeen qba vs (a, seen)
    | some qvPath =>
      match a.find? qvPath with
      | none => cavRemoveSeen qba vs (a, seen)
      | some _ =>
        let a1 := removeAllocationChain a (chainOf a qvPath) v.allocatedResource
        cavRemoveSeen qba vs (a1, seen ++ [v.allocationKey])

/-- Collect the potential victims of every queue, skipping seen keys. -/
def cavCollect (seen : List String) : List (String × Snap) → List Alloc
  | [] => []
  | (_, s) :: rest =>
    s.potentialVictims.filter (fun v => !(seen.contains v.allocationKey)) ++
      cavCollect seen rest

/-- Main loop of `calculateAdditionalVictims`: evaluate each potential victim
in the global order, keeping those whose removal moves the ask queue's
remaining guarantee, and breaking once the ask queue would overshoot. -/
def cavLoop (queuePath : String) (qba : List (String × String)) :
    List Alloc → Arena × List Alloc → Arena × List Alloc
  | [], acc => acc
  | v :: vs, (a, victims) =>
    match alookup qba v.allocationKey with
    | none => cavLoop queuePath qba vs (a, victims)
    | some qvPath =>
      match a.find? qvPath with
      | none => cavLoop queuePath qba vs (a, victims)
      | some _ =>
        let oldRemaining := getRemainingGuaranteed a (chainOf a qvPath)
        let a1 := removeAllocationChain a (chainOf a qvPath) v.allocatedResource
        let preemptable := getPreemptableResource a1 (chainOf a1 qvPath)
        if Res.geAll (preemptable.getD Res.zero) Res.zero &&
            (oldRemaining.isNone ||
              Res.gtStrict Res.zero (oldRemaining.getD Res.zero)) then
          let askRemBefore := getRemainingGuaranteed a1 (chainOf a1 queuePath)
          let a2 := addAllocationChain a1 (chainOf a1 queuePath) v.allocatedResource
          let askNewRem := getRemainingGuaranteed a2 (chainOf a2 queuePath)
          if askNewRem.isSome && Res.gtStrict Res.zero (askNewRem.getD Res.zero) then
            let aUndo := addAllocationChain
              (removeAllocationChain a2 (chainOf a2 queuePath) v.allocatedResource)
              (chainOf a2 qvPath) v.allocatedResource
            (aUndo, victims)
          else if !(eqOrEmptyO askRemBefore askNewRem) then
            cavLoop queuePath qba vs (a2, victims ++ [v])
          else
            let aUndo := addAllocationChain
              (removeAllocationChain a2 (chainOf a2 queuePath) v.allocatedResource)
              (chainOf a2 qvPath) v.allocatedResource
            cavLoop queuePath qba vs (aUndo, victims)
        else
          let aBack := addAllocationChain a1 (chainOf a1 qvPath) v.allocatedResource
          cavLoop queuePath qba vs (aBack, victims)

/-- calculateAdditionalVictims: find further queue-level victims so that the
ask queue ends within its guaranteed quota; `none` corresponds to the Go
`(nil, false)` result. -/
def calculateAdditionalVictims (p : Preemptor) (qba : List (String × String))
    (nodeVictims : List Alloc) : Option (List Alloc) :=
  let a := duplicateQueueSnapshots p.allocationsByQueue
  match a.find? p.queuePath with
  | none => none
  | some _ =>
    let (a1, seen) := cavRemoveSeen qba nodeVictims (a, [])
    let potentialVictims := cavCollect seen p.allocationsByQueue.snaps
    let sorted := stableSort compareAllocationLess potentialVictims
    let (a2, victims) := cavLoop p.queuePath qba sorted (a1, [])
    let finalRemainingRes := getRemainingGuaranteed a2 (chainOf a2 p.queuePath)
    if finalRemainingRes.isSome &&
        Res.geAll (finalRemainingRes.getD Res.zero) Res.zero then
      some victims
    else none

/-- The final victim filter of `TryPreemption`: walk the merged victim list,
dropping off-node victims when the chosen node does not fit the ask on its
own, and collecting victims until the running total covers the ask on every
component present in the ask. -/
def finalFilter (askRes : Res) (fitInFlag : Bool) (nodeID : String) :
    List Alloc → Res → List Alloc → List Alloc × Res
  | [], total, finalVictims => (finalVictims, total)
  | v :: vs, total, finalVictims =>
    if !fitInFlag && !(v.nodeID == nodeID) then
      finalFilter askRes fitInFlag nodeID vs total finalVictims
    else
      let finalVictims1 :=
        if askRes.sgtOnlyExisting total then finalVictims ++ [v] else finalVictims
      finalFilter askRes fitInFlag nodeID vs
        (total.addTo v.allocatedResource) finalVictims1

/-- The observable outcome of `TryPreemption`: the reserved-allocation result
(the chosen node), the success flag, and the committed victims (those marked
preempted, whose queues get their preempting resource incremented). -/
structure TPOutcome where
  result : Option String
  ok : Bool
  committed : List Alloc
deriving Repr, DecidableEq

/-- A failed `TryPreemption`: `(nil, false)` with no side effects. -/
def tpFail : TPOutcome := { result := none, ok := false, committed := [] }

/-- TryPreemption, the orchestrator: feasibility precheck, working state,
node trial through the predicate coordinator, additional-victim top-up,
node-restricted filtering with the shortfall guard, then commit. -/
def TryPreemption (p : Preemptor) (po : Oracle) : TPOutcome :=
  if !checkPreemptionQueueGuarantees p then tpFail
  else
    let ws := initWorkingState p
    match tryNodes p ws po with
    | none => tpFail
    | some (nodeID, nodeVictims) =>
      match calculateAdditionalVictims p ws.queueByAlloc nodeVictims with
      | none => tpFail
      | some extraVictims =>
        let victims := nodeVictims ++ extraVictims
        if victims.isEmpty then tpFail
        else
          let fitInFlag :=
            ((alookup ws.nodeAvailableMap nodeID).getD Res.zero).fitIn
              p.ask.allocatedResource
          let fr := finalFilter p.ask.allocatedResource fitInFlag nodeID victims
            Res.zero []
          if p.ask.allocatedResource.sgtOnlyExisting fr.2 then tpFail
          else { result := some nodeID, ok := true, committed := fr.1 }

/-!
Reference model of the snapshot tree.  The value-level arena above cannot
express the aliasing content of `Duplicate` (that the clones of the four
resource vectors are fresh objects), so the snapshot structure is modelled a
second time with the resource vectors held in an explicit store of cells and
snapshots holding cell references; `Duplicate` allocates fresh cells, and
`AddAllocation`/`RemoveAllocation` write through the references.
-/

/-- A snapshot in the reference model: resource fields are references into
the store. -/
structure RSnap where
  parent : Option String
  queuePath : String
  allocRef : Nat
  preemptingRef : Nat
  maxRef : Nat
  guaranteedRef : Nat
deriving Repr, DecidableEq

/-- The store of resource-vector cells. -/
structure Store where
  cells : List Res
deriving Repr, DecidableEq

def Store.read (st : Store) (i : Nat) : Res :=
  st.cells.getD i Res.zero

def Store.write (st : Store) (i : Nat) (r : Res) : Store :=
  ⟨st.cells.set i r⟩

/-- Clone: allocate a fresh cell holding a copy of the value. -/
def Store.allocCell (st : Store) (r : Res) : Store × Nat :=
  (⟨st.cells ++ [r]⟩, st.cells.length)

/-- A snapshot map in the reference model. -/
structure RArena where
  snaps : List (String × RSnap)
deriving Repr, DecidableEq

def RArena.find? (a : RArena) (p : String) : Option RSnap :=
  alookup a.snaps p

def RArena.insert (a : RArena) (p : String) (s : RSnap) : RArena :=
  ⟨a.snaps ++ [(p, s)]⟩

/-- Duplicate in the reference model: if the path is already in the target
map return it, otherwise duplicate the parent first, then create a fresh
snapshot whose four resource vectors are independent clones.  Fuel bounds the
parent recursion. -/
def dupSnap (src : RArena) : Nat → String → Store × RArena → Store × RArena
  | 0, _, acc => acc
  | fuel + 1, path, (st, cache) =>
    match cache.find? path with
    | some _ => (st, cache)
    | none =>
      match src.find? path with
      | none => (st, cache)
      | some s =>
        let (st1, cache1) :=
          match s.parent with
          | none => (st, cache)
          | some pp => dupSnap src fuel pp (st, cache)
        let (st2, aRef) := st1.allocCell (st1.read s.allocRef)
        let (st3, pRef) := st2.allocCell (st2.read s.preemptingRef)
        let (st4, mRef) := st3.allocCell (st3.read s.maxRef)
        let (st5, gRef) := st4.allocCell (st4.read s.guaranteedRef)
        (st5, cache1.insert path
          { parent := s.parent, queuePath := s.queuePath, allocRef := aRef,
            preemptingRef := pRef, maxRef := mRef, guaranteedRef := gRef })

/-- duplicateQueueSnapshots in the reference model: fold `Duplicate` over
every snapshot into a fresh map. -/
def duplicateTreeR (st : Store) (src : RArena) : Store × RArena :=
  src.snaps.foldl (fun acc e => dupSnap src (src.snaps.length + 1) e.1 acc)
    (st, ⟨[]⟩)

/-- Parent chain in the reference model. -/
def chainOfAuxR (a : RArena) : Nat → Option String → List String
  | 0, _ => []
  | _, none => []
  | fuel + 1, some p =>
    match a.find? p with
    | none => []
    | some s => p :: chainOfAuxR a fuel s.parent

def chainOfR (a : RArena) (p : String) : List String :=
  chainOfAuxR a (a.snaps.length + 1) (some p)

/-- AddAllocation in the reference model: write through the allocated-resource
reference of the snapshot and of every ancestor. -/
def addAllocationR (st : Store) (a : RArena) : List String → Res → Store
  | [], _ => st
  | p :: rest, r =>
    let st1 := addAllocationR st a rest r
    match a.find? p with
    | none => st1
    | some s => st1.write s.allocRef ((st1.read s.allocRef).addTo r)

/-- RemoveAllocation in the reference model. -/
def removeAllocationR (st : Store) (a : RArena) : List String → Res → Store
  | [], _ => st
  | p :: rest, r =>
    let st1 := removeAllocationR st a rest r
    match a.find? p with
    | none => st1
    | some s => st1.write s.allocRef ((st1.read s.allocRef).subFrom r)

/-- One Add (true) or Remove (false) mutation addressed at a queue path. -/
def applyOpR (a : RArena) (st : Store) (op : Bool × String × Res) : Store :=
  if op.1 then addAllocationR st a (chainOfR a op.2.1) op.2.2
  else removeAllocationR st a (chainOfR a op.2.1) op.2.2

/-- An arbitrary sequence of Add/Remove mutations through one arena's
snapshots. -/
def applyOpsR (a : RArena) : List (Bool × String × Res) → Store → Store
  | [], st => st
  | op :: ops, st => applyOpsR a ops (applyOpR a st op)

/-- All four resource references of a reference-model snapshot. -/
def RSnap.refs (s : RSnap) : List Nat :=
  [s.allocRef, s.preemptingRef, s.maxRef, s.guaranteedRef]

/-!
Concrete instances used in the scenario theorems and witnesses.
-/

/-- A one-component cpu resource vector. -/
def rc (v : Int) : Res := ⟨[("cpu", v)]⟩

/-- Scenario S1 of the spec: the ask of 4 cpu. -/
def exAskS1 : Alloc :=
  { allocationKey := "ask-1", applicationID := "app-1", nodeID := "",
    allocatedResource := rc 4, createTime := 0, originator := false,
    allowPreemptSelf := true, allowPreemptOther := true, requiredNode := "",
    hasTriggeredPreemption := false, preemptCheckTime := 0 }

/-- Scenario S1: root queue, guaranteed 10 cpu, nothing allocated. -/
def exRootS1 : Snap :=
  { parent := none, queuePath := "root", leaf := false,
    allocatedResource := Res.zero, preemptingResource := Res.zero,
    maxResource := Res.zero, guaranteedResource := rc 10,
    potentialVictims := [], askQueue := some "root.A" }

/-- Scenario S1: queue A (the ask queue), guaranteed 10 cpu, nothing
allocated, no victims. -/
def exQAS1 : Snap :=
  { parent := some "root", queuePath := "root.A", leaf := true,
    allocatedResource := Res.zero, preemptingResource := Res.zero,
    maxResource := Res.zero, guaranteedResource := rc 10,
    potentialVictims := [], askQueue := some "root.A" }

/-- Scenario S1: node N1 with 8 cpu available and no victims. -/
def exN1S1 : Node :=
  { nodeID := "n1", schedulable := true, reservation := none,
    capacity := rc 8, available := rc 8 }

/-- Scenario S1: the preemptor for the ask of 4 into queue A. -/
def exPS1 : Preemptor :=
  { queuePath := "root.A", ask := exAskS1, preemptionDelay := 0,
    iterator := [exN1S1], nodesTried := false,
    allocationsByQueue := ⟨[("root", exRootS1), ("root.A", exQAS1)]⟩ }

/-- Success scenario: the single victim, 4 cpu on node n1, preemptable. -/
def exV1 : Alloc :=
  { allocationKey := "v1", applicationID := "app-2", nodeID := "n1",
    allocatedResource := rc 4, createTime := 10, originator := false,
    allowPreemptSelf := true, allowPreemptOther := true, requiredNode := "",
    hasTriggeredPreemption := false, preemptCheckTime := 0 }

/-- Success scenario: an ask of 4 cpu that has already triggered preemption. -/
def exAskT : Alloc :=
  { allocationKey := "ask-1", applicationID := "app-1", nodeID := "",
    allocatedResource := rc 4, createTime := 0, originator := false,
    allowPreemptSelf := true, allowPreemptOther := true, requiredNode := "",
    hasTriggeredPreemption := true, preemptCheckTime := 0 }

/-- Success scenario: root queue, guaranteed 10 cpu, 4 cpu allocated. -/
def exRootT : Snap :=
  { parent := none, queuePath := "root", leaf := false,
    allocatedResource := rc 4, preemptingResource := Res.zero,
    maxResource := Res.zero, guaranteedResource := rc 10,
    potentialVictims := [], askQueue := some "root.A" }

/-- Success scenario: queue A (the ask queue), guaranteed 5 cpu, empty. -/
def exQAT : Snap :=
  { parent := some "root", queuePath := "root.A", leaf := true,
    allocatedResource := Res.zero, preemptingResource := Res.zero,
    maxResource := Res.zero, guaranteedResource := rc 5,
    potentialVictims := [], askQueue := some "root.A" }

/-- Success scenario: queue B, no guarantee, 4 cpu allocated via the victim. -/
def exQBT : Snap :=
  { parent := some "root", queuePath := "root.B", leaf := true,
    allocatedResource := rc 4, preemptingResource := Res.zero,
    maxResource := Res.zero, guaranteedResource := Res.zero,
    potentialVictims := [exV1], askQueue := some "root.A" }

/-- Success scenario: node n1 with nothing available, hosting the victim. -/
def exN1T : Node :=
  { nodeID := "n1", schedulable := true, reservation := none,
    capacity := rc 8, available := rc 0 }

/-- Success scenario preemptor whose ask has already triggered preemption. -/
def exPT : Preemptor :=
  { queuePath := "root.A", ask := exAskT, preemptionDelay := 0,
    iterator := [exN1T], nodesTried := false,
    allocationsByQueue := ⟨[("root", exRootT), ("root.A", exQAT), ("root.B", exQBT)]⟩ }

/-- Scenario S2 proper: the same success scenario with an ask that has not
yet triggered preemption. -/
def exAskS2 : Alloc :=
  { allocationKey := "ask-1", applicationID := "app-1", nodeID := "",
    allocatedResource := rc 4, createTime := 0, originator := false,
    allowPreemptSelf := true, allowPreemptOther := true, requiredNode := "",
    hasTriggeredPreemption := false, preemptCheckTime := 0 }

/-- Scenario S2 preemptor (fresh ask). -/
def exPS2 : Preemptor :=
  { queuePath := "root.A", ask := exAskS2, preemptionDelay := 0,
    iterator := [exN1T], nodesTried := false,
    allocationsByQueue := ⟨[("root", exRootT), ("root.A", exQAT), ("root.B", exQBT)]⟩ }

/-- A preemptor whose queue hierarchy defines no guarantees anywhere on the
ask chain. -/
def exPC10 : Preemptor :=
  { queuePath := "root.A", ask := exAskS1, preemptionDelay := 0,
    iterator := [exN1T], nodesTried := false,
    allocationsByQueue := ⟨[
      ("root", { exRootT with guaranteedResource := Res.zero }),
      ("root.A", { exQAT with guaranteedResource := Res.zero }),
      ("root.B", exQBT)]⟩ }

/-- An ask eligible for preemption at time 0 (last checked long ago). -/
def exAsk8 : Alloc :=
  { allocationKey := "ask-8", applicationID := "app-8", nodeID := "",
    allocatedResource := rc 4, createTime := 0, originator := false,
    allowPreemptSelf := true, allowPreemptOther := true, requiredNode := "",
    hasTriggeredPreemption := false, preemptCheckTime := -100 }

/-!
Helper notions used by the claim theorems.
-/

/-- Component-wise sum of the allocated resources of a victim list. -/
def sumAllocs (l : List Alloc) : Res :=
  l.foldl (fun acc v => acc.addTo v.allocatedResource) Res.zero

/-- Node availability after preempting a list of victims. -/
def prefixAvail (base : Res) (l : List Alloc) : Res :=
  l.foldl (fun acc v => acc.addTo v.allocatedResource) base

/-- Total contribution of a binding list to one key. -/
def listContrib (l : List (String × Int)) (k : String) : Int :=
  (l.map (fun p => if p.1 == k then p.2 else 0)).sum

/-- Structural non-negativity: every binding of the vector is non-negative
(allocations carry non-negative resource quantities). -/
def resNonneg (r : Res) : Prop := ∀ p ∈ r.res, 0 ≤ p.2

/-- Every potential victim recorded in the arena has non-negative resources. -/
def arenaVictimsNonneg (a : Arena) : Prop :=
  ∀ e ∈ a.snaps, ∀ v ∈ e.2.potentialVictims, resNonneg v.allocatedResource

/-- Membership among an arena's potential victims. -/
def inArenaVictims (a : Arena) (v : Alloc) : Prop :=
  ∃ e ∈ a.snaps, v ∈ e.2.potentialVictims

/-- Provenance of the predicate coordinator: the victims of a successful
result are drawn from the victims-by-node map handed to it (true of the
plugin path, which slices `victimsByNode[nodeID]`, and of the no-plugin
path). -/
def oracleProvenance (po : Oracle) : Prop :=
  ∀ checks vbn n vs, po checks vbn = some (n, vs) →
    ∀ v ∈ vs, ∃ e ∈ vbn, v ∈ e.2

/-- Every guarantee along a chain of queue paths is empty. -/
def chainGuaranteesEmpty (a : Arena) (chain : List String) : Prop :=
  ∀ q ∈ chain, ∀ s, a.find? q = some s → s.guaranteedResource.isEmpty = true

/-- The allocated-resource component of the snapshot at a path (zero when the
path is absent). -/
def allocGet (a : Arena) (q : String) (k : String) : Int :=
  (((a.find? q).map (fun s => s.allocatedResource)).getD Res.zero).get k

/-- Everything of a snapshot except its allocated resource. -/
def Snap.shape (s : Snap) :
    Option String × String × Bool × Res × Res × Res × List Alloc × Option String :=
  (s.parent, s.queuePath, s.leaf, s.preemptingResource, s.maxResource,
    s.guaranteedResource, s.potentialVictims, s.askQueue)

/-- A binding list with pairwise distinct keys (a Go map always is). -/
def keysNodup (l : List (String × Int)) : Prop :=
  (l.map (fun p => p.1)).Nodup

/-- A concrete eight-cell store for the duplication witness. -/
def exStoreC6 : Store :=
  ⟨[rc 1, rc 0, rc 9, rc 2, rc 3, rc 0, rc 9, rc 1]⟩

/-- A concrete two-snapshot reference arena over `exStoreC6`. -/
def exRArenaC6 : RArena :=
  ⟨[("root", ⟨none, "root", 0, 1, 2, 3⟩),
    ("root.A", ⟨some "root", "root.A", 4, 5, 6, 7⟩)]⟩

/-- A concrete mutation sequence for the duplication witness. -/
def exOpsC6 : List (Bool × String × Res) :=
  [(true, "root.A", rc 5), (false, "root.A", rc 2)]

/-- Every resource reference of every snapshot lies below the bound (the
well-formedness of an arena whose cells live in the store). -/
def arenaRefsBelow (n : Nat) (a : RArena) : Prop :=
  ∀ e ∈ a.snaps, e.2.allocRef < n ∧ e.2.preemptingRef < n ∧
    e.2.maxRef < n ∧ e.2.guaranteedRef < n

/-- Every resource reference of every snapshot is at least the bound
(freshness of the duplicated arena relative to the original store). -/
def arenaRefsAtLeast (n : Nat) (a : RArena) : Prop :=
  ∀ e ∈ a.snaps, n ≤ e.2.allocRef ∧ n ≤ e.2.preemptingRef ∧
    n ≤ e.2.maxRef ∧ n ≤ e.2.guaranteedRef

/-- The loop invariant of the second pass of `calculateVictimsByNode`: the
running availability is the base availability plus the accumulated results,
and the recorded index, when set, marks the first prefix of the results whose
removal makes the ask fit. -/
def p2inv (askRes base : Res) (st : P2State) : Prop :=
  st.avail = prefixAvail base st.results ∧
    (st.index < 0 → ∀ j ≤ st.results.length,
      (prefixAvail base (st.results.take j)).fitIn askRes = false) ∧
    (0 ≤ st.index →
      st.index.toNat < st.results.length ∧
      (prefixAvail base (st.results.take (st.index.toNat + 1))).fitIn askRes
        = true ∧
      ∀ j ≤ st.index.toNat,
        (prefixAvail base (st.results.take j)).fitIn askRes = false)

/-- The remaining own guarantee of a snapshot: guaranteed minus used, where
used is allocated minus preempting (the quantity tested by the ask-queue
branches of `getRemainingGuaranteed`). -/
def ownRemaining (s : Snap) : Res :=
  s.guaranteedResource.subOnlyExisting
    (s.allocatedResource.subOnlyExisting s.preemptingResource)

/-- A root queue snapshot that is its own ask queue, with an untouched
guarantee of 10 cpu. -/
def exSelf : Snap :=
  { parent := none, queuePath := "root", leaf := true,
    allocatedResource := Res.zero, preemptingResource := Res.zero,
    maxResource := Res.zero, guaranteedResource := rc 10,
    potentialVictims := [], askQueue := some "root" }

/-- The one-queue arena around `exSelf`. -/
def exSelfArena : Arena := ⟨[("root", exSelf)]⟩

/-- A two-queue arena where root is a proper ancestor of the ask queue. -/
def exC4Arena : Arena := ⟨[("root", exRootT), ("root.A", exQAT)]⟩

/-!
Theorems.
-/

/-- Auxiliary: on success, `CheckPreconditions` stamps the ask's preemption
check time with the current time. -/
theorem checkPre_sets_time (a : Alloc) (d t : Int)
    (h : (CheckPreconditions a d t).1 = true) :
    (CheckPreconditions a d t).2.preemptCheckTime = t := by
  revert h
  unfold CheckPreconditions
  split_ifs <;> simp

/-- Auxiliary: a call made before the ask's check time plus the attempt
frequency is rejected. -/
theorem checkPre_throttled (a : Alloc) (d t : Int)
    (h : t < a.preemptCheckTime + preemptAttemptFrequency) :
    (CheckPreconditions a d t).1 = false := by
  unfold CheckPreconditions
  split_ifs <;> simp_all

/-- C8: two consecutive `CheckPreconditions` calls on the same ask within
`preemptAttemptFrequency` cannot both return true: a call that returns true
sets the ask's `preemptCheckTime` to the current time, so any later call made
before `preemptCheckTime + preemptAttemptFrequency` returns false. -/
theorem C8_throttle (ask : Alloc) (d t1 t2 : Int)
    (h1 : (CheckPreconditions ask d t1).1 = true)
    (h2 : t2 < t1 + preemptAttemptFrequency) :
    (CheckPreconditions (CheckPreconditions ask d t1).2 d t2).1 = false := by
  apply checkPre_throttled
  rw [checkPre_sets_time ask d t1 h1]
  exact h2

/-- Witness for C8 at a concrete ask and concrete times 0 and 10. -/
theorem C8_throttle_w :
    (CheckPreconditions exAsk8 0 0).1 = true ∧
      (10 : Int) < 0 + preemptAttemptFrequency ∧
      (CheckPreconditions (CheckPreconditions exAsk8 0 0).2 0 10).1 = false :=
  ⟨by decide, by decide, C8_throttle exAsk8 0 0 10 (by decide) (by decide)⟩

/-- C2 counterexample: in scenario S1 (no queue has potential victims and the
node already fits the ask) `TryPreemption` does not return a reserved
allocation result for the node: it fails, because the feasibility precheck
`checkPreemptionQueueGuarantees` can only succeed inside its loop over
potential victims, and there are none. -/
theorem C2_s1_no_reservation :
    (TryPreemption exPS1 noPluginOracle).result = none ∧
      (TryPreemption exPS1 noPluginOracle).ok = false :=
  ⟨rfl, rfl⟩

/-- C2 (amended): in scenario S1 the per-node calculator does return
`(-1, [])` for node n1, but `TryPreemption` returns `(nil, false)` with no
victims marked, because the feasibility precheck fails when there are no
potential victims to remove. -/
theorem C2_s1_behavior :
    calculateVictimsByNode exPS1 (initWorkingState exPS1).queueByAlloc
        (rc 8) [] = (-1, some []) ∧
      checkPreemptionQueueGuarantees exPS1 = false ∧
      TryPreemption exPS1 noPluginOracle = tpFail :=
  ⟨rfl, rfl, rfl⟩

/-- C9 counterexample: an ask whose `hasTriggeredPreemption` flag is set can
still drive `TryPreemption` to a successful commit (the flag is never
consulted by `TryPreemption` itself): in this concrete state the call returns
a reserved result for node n1 and marks a victim. -/
theorem C9_triggered_ask_still_preempts :
    exPT.ask.hasTriggeredPreemption = true ∧
      TryPreemption exPT noPluginOracle =
        { result := some "n1", ok := true, committed := [exV1] } :=
  ⟨rfl, rfl⟩

/-- C9 (amended): the `hasTriggeredPreemption` check lives in the
`CheckPreconditions` gate, not in `TryPreemption`: whenever the flag is set
the gate returns false and leaves the ask untouched, so the gated scheduler
flow never reaches `TryPreemption`; `TryPreemption` itself does not re-check
the flag. -/
theorem C9_gate_rejects_triggered (ask : Alloc) (d now : Int)
    (h : ask.hasTriggeredPreemption = true) :
    CheckPreconditions ask d now = (false, ask) := by
  unfold CheckPreconditions
  cases hA : ask.allowPreemptOther <;> simp [h, hA]

/-- Witness for the amended C9 at the concrete triggered ask. -/
theorem C9_gate_rejects_triggered_w :
    exAskT.hasTriggeredPreemption = true ∧
      CheckPreconditions exAskT 0 100 = (false, exAskT) :=
  ⟨rfl, C9_gate_rejects_triggered exAskT 0 100 rfl⟩

/-- C4 counterexample: with the ask-queue reference set to the queue itself,
the ask queue's path starts with this queue's path (they are equal) and the
ask queue's own remaining guarantee is non-empty, yet
`GetRemainingGuaranteedResource` returns the remaining guarantee merged with
the parent, not nil: the equal-path branch precedes the no-propagation
branch. -/
theorem C4_equal_path_not_nil :
    strHasPrefix exSelf.queuePath exSelf.queuePath = true ∧
      (ownRemaining exSelf).isEmpty = false ∧
      getRemainingGuaranteed exSelfArena (chainOf exSelfArena "root") =
        some (rc 10) :=
  ⟨rfl, rfl, rfl⟩

/-- C4 (amended): for a queue snapshot whose ask-queue reference is set, if
this queue is a proper ancestor of the ask queue on the same branch (the ask
queue's path strictly extends this queue's path), this queue's own remaining
guarantee is non-empty, and the ask queue's own remaining guarantee is
non-empty, then `GetRemainingGuaranteedResource` returns nil rather than
propagating this ancestor's remaining downward. -/
theorem C4_ancestor_no_propagation (a : Arena) (q : String) (rest : List String)
    (s aq : Snap) (aqp : String)
    (h1 : a.find? q = some s)
    (h2 : s.askQueue = some aqp)
    (h3 : a.find? aqp = some aq)
    (h4 : strHasPrefix aq.queuePath s.queuePath = true)
    (h5 : aq.queuePath ≠ s.queuePath)
    (h6 : (ownRemaining s).isEmpty = false)
    (h7 : (ownRemaining aq).isEmpty = false) :
    getRemainingGuaranteed a (q :: rest) = none := by
  have hne : (aq.queuePath == s.queuePath) = false := by
    simp [h5]
  simp only [ownRemaining] at h6 h7
  simp only [getRemainingGuaranteed, h1]
  split
  · rfl
  · simp [h2, h3, hne, h4, h6, h7]

/-- Witness for the amended C4 at a concrete proper-ancestor snapshot. -/
theorem C4_ancestor_no_propagation_w :
    (exC4Arena.find? "root" = some exRootT ∧
      strHasPrefix exQAT.queuePath exRootT.queuePath = true ∧
      (ownRemaining exRootT).isEmpty = false ∧
      (ownRemaining exQAT).isEmpty = false) ∧
      getRemainingGuaranteed exC4Arena ["root"] = none :=
  ⟨⟨rfl, rfl, rfl, rfl⟩,
    C4_ancestor_no_propagation exC4Arena "root" [] exRootT exQAT "root.A"
      rfl rfl rfl rfl (by decide) rfl rfl⟩

/-- Auxiliary: positive-valued bindings give positive lookups on present
keys. -/
theorem get_pos_of_hasKey (b : Res) (k : String)
    (hk : b.hasKey k = true) (hpos : ∀ q ∈ b.res, 0 < q.2) :
    0 < b.get k := by
  unfold Res.hasKey at hk
  unfold Res.get
  cases hfind : b.res.find? (fun p => p.1 == k) with
  | none => rw [hfind] at hk; simp at hk
  | some q =>
    simp only [hfind]
    exact hpos q (List.mem_of_find?_eq_some hfind)

/-- Auxiliary: the final branch of `getPreemptableResource` preserves strict
positivity of all kept components. -/
theorem preemptable_branch_pos (pre : Res) (parentP : Option Res)
    (hpre : ∀ p ∈ pre.res, 0 < p.2)
    (hpar : ∀ bb, parentP = some bb → ∀ q ∈ bb.res, 0 < q.2)
    (r : Res)
    (h : (if pre.isEmpty = true then some pre
          else some (pre.cwMinOnlyExisting parentP)) = some r) :
    ∀ p ∈ r.res, 0 < p.2 := by
  split at h <;> cases h
  · exact hpre
  · intro p hp
    cases hbb : parentP with
    | none =>
      rw [hbb] at hp
      simp only [Res.cwMinOnlyExisting] at hp
      exact hpre p hp
    | some bb =>
      rw [hbb] at hp
      simp only [Res.cwMinOnlyExisting] at hp
      rcases List.mem_map.mp hp with ⟨q0, hq0, hq0eq⟩
      have hq0pos : 0 < q0.2 := hpre q0 hq0
      subst hq0eq
      by_cases hbk : bb.hasKey q0.1 = true
      · have hbpos : 0 < bb.get q0.1 :=
          get_pos_of_hasKey bb q0.1 hbk (hpar bb hbb)
        simp [hbk, hq0pos, hbpos]
      · simp [hbk, hq0pos]

/-- C7: whenever `GetPreemptableResource` returns a non-nil resource vector,
every component present in that vector is strictly positive: components that
are under-used or exactly at guarantee are dropped, and the component-wise
minimum with the parent's preemptable resource (taken only over the keys kept
here) preserves strict positivity. -/
theorem C7_preemptable_positive (chain : List String) (a : Arena) (r : Res)
    (h : getPreemptableResource a chain = some r) :
    ∀ p ∈ r.res, 0 < p.2 := by
  induction chain generalizing r with
  | nil => simp [getPreemptableResource] at h
  | cons q rest ih =>
    simp only [getPreemptableResource] at h
    cases hf : a.find? q with
    | none => rw [hf] at h; simp at h
    | some qps =>
      rw [hf] at h
      dsimp only at h
      by_cases he : qps.allocatedResource.isEmpty = true
      · rw [if_pos he] at h; simp at h
      · rw [if_neg he] at h
        exact preemptable_branch_pos _ _
          (fun p hp => by
            have := List.mem_filter.mp hp
            simpa using this.2)
          (fun bb hbb => ih bb hbb) r h

/-- Witness for C7 at queue B of the success scenario: 4 cpu over guarantee,
parent filtered empty. -/
theorem C7_preemptable_positive_w :
    getPreemptableResource exPT.allocationsByQueue
        (chainOf exPT.allocationsByQueue "root.B") = some (rc 4) ∧
      (0 : Int) < 4 :=
  ⟨rfl,
    C7_preemptable_positive (chainOf exPT.allocationsByQueue "root.B")
      exPT.allocationsByQueue (rc 4) rfl ("cpu", 4) (by simp [rc])⟩

/-- Auxiliary: lookup on a cons binding list. -/
theorem get_cons (p : String × Int) (ps : List (String × Int)) (k : String) :
    Res.get ⟨p :: ps⟩ k = if p.1 == k then p.2 else Res.get ⟨ps⟩ k := by
  by_cases hp : p.1 == k <;> simp [Res.get, List.find?, hp]

/-- Auxiliary: `setKey` writes the requested key. -/
theorem get_setKey_self (l : List (String × Int)) (k : String) (v : Int) :
    Res.get ⟨setKey l k v⟩ k = v := by
  induction l with
  | nil => simp [setKey, Res.get, List.find?]
  | cons p ps ih =>
    by_cases hp : p.1 == k
    · simp [setKey, hp, get_cons]
    · rw [setKey]
      simp only [hp, if_false, Bool.false_eq_true]
      rw [get_cons]
      simp [hp, ih]

/-- Auxiliary: `setKey` leaves other keys unchanged. -/
theorem get_setKey_ne (l : List (String × Int)) (k k2 : String) (v : Int)
    (h : (k == k2) = false) :
    Res.get ⟨setKey l k v⟩ k2 = Res.get ⟨l⟩ k2 := by
  induction l with
  | nil => simp [setKey, Res.get, List.find?, h]
  | cons p ps ih =>
    by_cases hp : p.1 == k
    · have hpk : p.1 = k := by simpa using hp
      rw [setKey]
      simp only [hp, if_true, Bool.true_eq]
      rw [get_cons, get_cons]
      simp [hpk, h]
    · rw [setKey]
      simp only [hp, if_false, Bool.false_eq_true]
      rw [get_cons, get_cons]
      by_cases hq : p.1 == k2 <;> simp [hq, ih]

/-- Auxiliary: the lookup after `addPair`. -/
theorem get_addPair (r : Res) (k : String) (v : Int) (k2 : String) :
    Res.get (r.addPair k v) k2 =
      Res.get r k2 + (if k == k2 then v else 0) := by
  by_cases h : k == k2
  · have hk : k = k2 := by simpa using h
    subst hk
    simp [Res.addPair, get_setKey_self, h]
  · have h2 : (k == k2) = false := by simpa using h
    simp [Res.addPair, get_setKey_ne r.res k k2 _ h2, h2]

/-- Auxiliary: the running fold of `AddTo` adds the total contribution of the
addend's bindings to each key. -/
theorem get_foldl_add (l : List (String × Int)) (r : Res) (k : String) :
    Res.get (l.foldl (fun acc p => acc.addPair p.1 p.2) r) k =
      Res.get r k + listContrib l k := by
  induction l generalizing r with
  | nil => simp [listContrib]
  | cons p ps ih =>
    simp only [List.foldl_cons, ih, get_addPair, listContrib, List.map_cons,
      List.sum_cons]
    ring

/-- Auxiliary: the running fold of `SubFrom` subtracts the total contribution
of the subtrahend's bindings from each key. -/
theorem get_foldl_sub (l : List (String × Int)) (r : Res) (k : String) :
    Res.get (l.foldl (fun acc p => acc.addPair p.1 (-p.2)) r) k =
      Res.get r k - listContrib l k := by
  induction l generalizing r with
  | nil => simp [listContrib]
  | cons p ps ih =>
    simp only [List.foldl_cons, ih, get_addPair, listContrib, List.map_cons,
      List.sum_cons]
    by_cases hp : p.1 == k
    · simp [hp]
      ring
    · simp [hp]

/-- Auxiliary: `AddTo` at the lookup level. -/
theorem get_addTo (r o : Res) (k : String) :
    Res.get (r.addTo o) k = Res.get r k + listContrib o.res k :=
  get_foldl_add o.res r k

/-- Auxiliary: `SubFrom` at the lookup level. -/
theorem get_subFrom (r o : Res) (k : String) :
    Res.get (r.subFrom o) k = Res.get r k - listContrib o.res k :=
  get_foldl_sub o.res r k

/-- Auxiliary: unfolding one binding of a contribution. -/
theorem listContrib_cons (p : String × Int) (ps : List (String × Int))
    (k : String) :
    listContrib (p :: ps) k = (if p.1 == k then p.2 else 0) + listContrib ps k := by
  simp [listContrib]

/-- Auxiliary: a key without bindings contributes nothing. -/
theorem listContrib_of_not_mem (l : List (String × Int)) (k : String)
    (h : k ∉ l.map (fun p => p.1)) : listContrib l k = 0 := by
  induction l with
  | nil => simp [listContrib]
  | cons p ps ih =>
    simp only [List.map_cons, List.mem_cons, not_or] at h
    have hp : (p.1 == k) = false := by
      simp [Ne.symm h.1]
    rw [listContrib_cons, ih h.2, hp]
    simp

/-- Auxiliary: over a duplicate-free binding list the contribution of a key
is its lookup. -/
theorem listContrib_eq_get (l : List (String × Int)) (k : String)
    (h : keysNodup l) : listContrib l k = Res.get ⟨l⟩ k := by
  induction l with
  | nil => simp [listContrib, Res.get, List.find?]
  | cons p ps ih =>
    simp only [keysNodup, List.map_cons, List.nodup_cons] at h
    rw [listContrib_cons, get_cons]
    by_cases hp : (p.1 == k) = true
    · have hpk : p.1 = k := by simpa using hp
      have hz : listContrib ps k = 0 :=
        listContrib_of_not_mem ps k (hpk ▸ h.1)
      rw [hp, hz]
      simp
    · have hp2 : (p.1 == k) = false := by simpa using hp
      rw [hp2, ih h.2]
      simp

/-- Auxiliary: lookup commutes with an in-place update of one path. -/
theorem find?_update (a : Arena) (p : String) (f : Snap → Snap) (q : String) :
    (a.update p f).find? q =
      if q = p then (a.find? q).map f else a.find? q := by
  obtain ⟨l⟩ := a
  induction l with
  | nil =>
    by_cases h : q = p <;> simp [Arena.update, Arena.find?, alookup, h]
  | cons e es ih =>
    simp only [Arena.update, Arena.find?, alookup, List.map_cons,
      List.find?] at ih ⊢
    by_cases hep : (e.1 == p) = true
    · have hep2 : e.1 = p := by simpa using hep
      by_cases heq : (e.1 == q) = true
      · have heq2 : e.1 = q := by simpa using heq
        have hqp : q = p := by rw [← heq2, hep2]
        simp [hep, heq, hqp]
      · have hqp : ¬(q = p) := by
          intro hc
          exact heq (by simp [hep2, hc])
        simp only [hep, if_true]
        simp only [List.find?, heq]
        simpa [hqp] using ih
    · by_cases heq : (e.1 == q) = true
      · have heq2 : e.1 = q := by simpa using heq
        have hqp : ¬(q = p) := by
          intro hc
          exact hep (by simp [heq2, hc])
        simp only [hep, if_false, Bool.false_eq_true]
        simp only [List.find?, heq]
        simp [hqp]
      · simp only [hep, if_false, Bool.false_eq_true]
        simp only [List.find?, heq]
        simpa using ih

/-- Auxiliary: updates that keep the shape of a snapshot keep the shape of
every lookup. -/
theorem shape_find?_update (a : Arena) (p : String) (f : Snap → Snap) (q : String)
    (hf : ∀ s, (f s).shape = s.shape) :
    ((a.update p f).find? q).map Snap.shape = (a.find? q).map Snap.shape := by
  rw [find?_update]
  by_cases h : q = p
  · subst h
    cases a.find? q <;> simp [hf]
  · simp [h]

/-- Auxiliary: `AddAllocation` touches no field other than the allocated
resource, at any path. -/
theorem shape_addChain (chain : List String) (a : Arena) (r : Res) (q : String) :
    ((addAllocationChain a chain r).find? q).map Snap.shape =
      (a.find? q).map Snap.shape := by
  induction chain generalizing a with
  | nil => rfl
  | cons p rest ih =>
    simp only [addAllocationChain]
    exact (shape_find?_update (addAllocationChain a rest r) p
      (fun s => { s with allocatedResource := s.allocatedResource.addTo r }) q
      (fun s => rfl)).trans (ih a)

/-- Auxiliary: `RemoveAllocation` touches no field other than the allocated
resource, at any path. -/
theorem shape_removeChain (chain : List String) (a : Arena) (r : Res) (q : String) :
    ((removeAllocationChain a chain r).find? q).map Snap.shape =
      (a.find? q).map Snap.shape := by
  induction chain generalizing a with
  | nil => rfl
  | cons p rest ih =>
    simp only [removeAllocationChain]
    exact (shape_find?_update (removeAllocationChain a rest r) p
      (fun s => { s with allocatedResource := s.allocatedResource.subFrom r }) q
      (fun s => rfl)).trans (ih a)

/-- Auxiliary: presence of a path is stable under `AddAllocation`. -/
theorem isSome_addChain (chain : List String) (a : Arena) (r : Res) (q : String) :
    ((addAllocationChain a chain r).find? q).isSome = ((a.find? q)).isSome := by
  have h := shape_addChain chain a r q
  cases h1 : (addAllocationChain a chain r).find? q <;>
    cases h2 : a.find? q <;> simp [h1, h2] at h ⊢

/-- Auxiliary: off-chain paths are completely untouched by `AddAllocation`. -/
theorem find?_addChain_not_mem (chain : List String) (a : Arena) (r : Res)
    (q : String) (h : q ∉ chain) :
    (addAllocationChain a chain r).find? q = a.find? q := by
  induction chain generalizing a with
  | nil => rfl
  | cons p rest ih =>
    simp only [List.mem_cons, not_or] at h
    simp only [addAllocationChain]
    rw [find?_update, if_neg h.1]
    exact ih a h.2

/-- Auxiliary: the allocated resource read after `AddAllocation` along a
chain: each binding of the added vector contributes once per occurrence of
the path in the chain; absent paths stay absent. -/
theorem allocGet_addChain (chain : List String) (a : Arena) (r : Res)
    (q : String) (k : String) :
    allocGet (addAllocationChain a chain r) q k =
      allocGet a q k +
        (if (a.find? q).isSome then (chain.count q : Int) * listContrib r.res k
         else 0) := by
  induction chain generalizing a with
  | nil => simp [addAllocationChain]
  | cons p rest ih =>
    simp only [addAllocationChain]
    by_cases hq : q = p
    · subst hq
      unfold allocGet
      rw [find?_update, if_pos rfl]
      cases hsome : (addAllocationChain a rest r).find? q with
      | none =>
        have hs := isSome_addChain rest a r q
        rw [hsome] at hs
        have : (a.find? q).isSome = false := by simpa using hs.symm
        have hnone : a.find? q = none := by
          cases hv : a.find? q
          · rfl
          · rw [hv] at this; simp at this
        simp [hnone, allocGet]
      | some s =>
        have hs := isSome_addChain rest a r q
        rw [hsome] at hs
        have hsome2 : (a.find? q).isSome = true := by simpa using hs.symm
        have hcnt : (List.count q (q :: rest) : Int) =
            (List.count q rest : Int) + 1 := by
          simp [List.count_cons]
        rw [hcnt]
        have ihq := ih a
        unfold allocGet at ihq
        rw [hsome] at ihq
        simp only [Option.map_some', Option.getD_some] at ihq ⊢
        rw [get_addTo, ihq]
        simp [hsome2]
        ring
    · unfold allocGet
      rw [find?_update, if_neg hq]
      have ihq := ih a
      unfold allocGet at ihq
      rw [ihq]
      have hcnt : List.count q (p :: rest) = List.count q rest := by
        simp [List.count_cons, Ne.symm hq]
      rw [hcnt]

/-- Auxiliary: presence of a path is stable under `RemoveAllocation`. -/
theorem isSome_removeChain (chain : List String) (a : Arena) (r : Res)
    (q : String) :
    ((removeAllocationChain a chain r).find? q).isSome = ((a.find? q)).isSome := by
  have h := shape_removeChain chain a r q
  cases h1 : (removeAllocationChain a chain r).find? q <;>
    cases h2 : a.find? q <;> simp [h1, h2] at h ⊢

/-- Auxiliary: the allocated resource read after `RemoveAllocation` along a
chain: each binding of the removed vector is subtracted once per occurrence
of the path in the chain. -/
theorem allocGet_removeChain (chain : List String) (a : Arena) (r : Res)
    (q : String) (k : String) :
    allocGet (removeAllocationChain a chain r) q k =
      allocGet a q k -
        (if (a.find? q).isSome then (chain.count q : Int) * listContrib r.res k
         else 0) := by
  induction chain generalizing a with
  | nil => simp [removeAllocationChain]
  | cons p rest ih =>
    simp only [removeAllocationChain]
    by_cases hq : q = p
    · subst hq
      unfold allocGet
      rw [find?_update, if_pos rfl]
      cases hsome : (removeAllocationChain a rest r).find? q with
      | none =>
        have hs := isSome_removeChain rest a r q
        rw [hsome] at hs
        have : (a.find? q).isSome = false := by simpa using hs.symm
        have hnone : a.find? q = none := by
          cases hv : a.find? q
          · rfl
          · rw [hv] at this; simp at this
        simp [hnone, allocGet]
      | some s =>
        have hs := isSome_removeChain rest a r q
        rw [hsome] at hs
        have hsome2 : (a.find? q).isSome = true := by simpa using hs.symm
        have hcnt : (List.count q (q :: rest) : Int) =
            (List.count q rest : Int) + 1 := by
          simp [List.count_cons]
        rw [hcnt]
        have ihq := ih a
        unfold allocGet at ihq
        rw [hsome] at ihq
        simp only [Option.map_some', Option.getD_some] at ihq ⊢
        rw [get_subFrom, ihq]
        simp [hsome2]
        ring
    · unfold allocGet
      rw [find?_update, if_neg hq]
      have ihq := ih a
      unfold allocGet at ihq
      rw [ihq]
      have hcnt : List.count q (p :: rest) = List.count q rest := by
        simp [List.count_cons, Ne.symm hq]
      rw [hcnt]

/-- C5: on any snapshot arena, `AddAllocation(r)` along a parent chain
increases the allocated resource of the chain's node and of every ancestor by
exactly `r`, changes no other path and no other field, and
`RemoveAllocation(r)` is the exact inverse: applying it after the add
restores every snapshot's allocated resource (read component-wise) to its
prior value. -/
theorem C5_add_remove_inverse (a : Arena) (chain : List String) (r : Res)
    (hchain : chain.Nodup) (hr : keysNodup r.res) :
    (∀ q ∈ chain, (a.find? q).isSome = true → ∀ k,
        allocGet (addAllocationChain a chain r) q k = allocGet a q k + r.get k) ∧
      (∀ q, q ∉ chain → (addAllocationChain a chain r).find? q = a.find? q) ∧
      (∀ q, ((addAllocationChain a chain r).find? q).map Snap.shape =
        (a.find? q).map Snap.shape) ∧
      (∀ q k,
        allocGet (removeAllocationChain (addAllocationChain a chain r) chain r) q k
          = allocGet a q k) := by
  refine ⟨?_, ?_, ?_, ?_⟩
  · intro q hq hsome k
    rw [allocGet_addChain, if_pos hsome]
    rw [List.count_eq_one_of_mem hchain hq]
    rw [listContrib_eq_get r.res k hr]
    simp
  · intro q hq
    exact find?_addChain_not_mem chain a r q hq
  · intro q
    exact shape_addChain chain a r q
  · intro q k
    rw [allocGet_removeChain, allocGet_addChain, isSome_addChain]
    by_cases hs : (a.find? q).isSome = true <;> simp [hs]

/-- Witness for C5 on the success-scenario arena, adding and removing 3 cpu
at queue B (chain B, root). -/
theorem C5_add_remove_inverse_w :
    ((chainOf exPT.allocationsByQueue "root.B").Nodup ∧
      keysNodup (rc 3).res ∧
      "root.B" ∈ chainOf exPT.allocationsByQueue "root.B" ∧
      (exPT.allocationsByQueue.find? "root.B").isSome = true) ∧
      allocGet (addAllocationChain exPT.allocationsByQueue
          (chainOf exPT.allocationsByQueue "root.B") (rc 3)) "root.B" "cpu" =
        allocGet exPT.allocationsByQueue "root.B" "cpu" + (rc 3).get "cpu" ∧
      allocGet (removeAllocationChain (addAllocationChain exPT.allocationsByQueue
            (chainOf exPT.allocationsByQueue "root.B") (rc 3))
          (chainOf exPT.allocationsByQueue "root.B") (rc 3)) "root" "cpu" =
        allocGet exPT.allocationsByQueue "root" "cpu" :=
  ⟨⟨by decide, by unfold keysNodup; decide, by decide, by decide⟩,
    (C5_add_remove_inverse exPT.allocationsByQueue
        (chainOf exPT.allocationsByQueue "root.B") (rc 3) (by decide)
        (by unfold keysNodup; decide)).1 "root.B" (by decide) (by decide) "cpu",
    (C5_add_remove_inverse exPT.allocationsByQueue
        (chainOf exPT.allocationsByQueue "root.B") (rc 3) (by decide)
        (by unfold keysNodup; decide)).2.2.2 "root" "cpu"⟩

/-- Auxiliary: equal shapes give equal guarantees. -/
theorem guar_eq_of_shape_eq (s s2 : Snap) (h : s.shape = s2.shape) :
    s.guaranteedResource = s2.guaranteedResource := by
  simp only [Snap.shape, Prod.mk.injEq] at h
  exact h.2.2.2.2.2.1

/-- Auxiliary: equal shapes give equal parent links. -/
theorem parent_eq_of_shape_eq (s s2 : Snap) (h : s.shape = s2.shape) :
    s.parent = s2.parent := by
  simp only [Snap.shape, Prod.mk.injEq] at h
  exact h.1

/-- Auxiliary: the parent-chain walk only reads shapes, so two arenas with
identical shapes at every path produce identical chains. -/
theorem chainOfAux_shape_eq (b orig : Arena)
    (hb : ∀ q, (b.find? q).map Snap.shape = (orig.find? q).map Snap.shape)
    (fuel : Nat) (o : Option String) :
    chainOfAux b fuel o = chainOfAux orig fuel o := by
  induction fuel generalizing o with
  | zero => cases o <;> rfl
  | succ n ih =>
    cases o with
    | none => rfl
    | some p =>
      simp only [chainOfAux]
      have hp := hb p
      cases h1 : b.find? p with
      | none =>
        cases h2 : orig.find? p with
        | none => rfl
        | some s2 => rw [h1, h2] at hp; simp at hp
      | some s =>
        cases h2 : orig.find? p with
        | none => rw [h1, h2] at hp; simp at hp
        | some s2 =>
          rw [h1, h2] at hp
          simp only [Option.map_some', Option.some_inj] at hp
          dsimp only
          rw [parent_eq_of_shape_eq s s2 hp, ih]

/-- Auxiliary: an in-place update keeps the number of snapshots. -/
theorem length_update (a : Arena) (p : String) (f : Snap → Snap) :
    (a.update p f).snaps.length = a.snaps.length := by
  simp [Arena.update]

/-- Auxiliary: `AddAllocation` keeps the number of snapshots. -/
theorem length_addChain (chain : List String) (a : Arena) (r : Res) :
    (addAllocationChain a chain r).snaps.length = a.snaps.length := by
  induction chain generalizing a with
  | nil => rfl
  | cons p rest ih =>
    simp only [addAllocationChain]
    rw [length_update]
    exact ih a

/-- Auxiliary: `RemoveAllocation` keeps the number of snapshots. -/
theorem length_removeChain (chain : List String) (a : Arena) (r : Res) :
    (removeAllocationChain a chain r).snaps.length = a.snaps.length := by
  induction chain generalizing a with
  | nil => rfl
  | cons p rest ih =>
    simp only [removeAllocationChain]
    rw [length_update]
    exact ih a

/-- Auxiliary: chains are stable across arenas with equal shapes and equal
size. -/
theorem chainOf_transport (b orig : Arena)
    (hb : ∀ q, (b.find? q).map Snap.shape = (orig.find? q).map Snap.shape)
    (hlen : b.snaps.length = orig.snaps.length) (p : String) :
    chainOf b p = chainOf orig p := by
  unfold chainOf
  rw [hlen]
  exact chainOfAux_shape_eq b orig hb _ _

/-- Auxiliary: empty guarantees transport across arenas with equal shapes. -/
theorem chainGuaranteesEmpty_transport (b orig : Arena) (chain : List String)
    (hb : ∀ q, (b.find? q).map Snap.shape = (orig.find? q).map Snap.shape)
    (h : chainGuaranteesEmpty orig chain) : chainGuaranteesEmpty b chain := by
  intro q hq s hfs
  have hsh := hb q
  rw [hfs] at hsh
  cases ho : orig.find? q with
  | none => rw [ho] at hsh; simp at hsh
  | some s0 =>
    rw [ho] at hsh
    simp only [Option.map_some', Option.some_inj] at hsh
    rw [guar_eq_of_shape_eq s s0 hsh]
    exact h q hq s0 ho

/-- Auxiliary: a chain whose guarantees are all empty has no remaining
guaranteed resource, whatever the allocations are. -/
theorem remaining_none_of_emptyGuar (chain : List String) (a : Arena)
    (h : chainGuaranteesEmpty a chain) :
    getRemainingGuaranteed a chain = none := by
  induction chain with
  | nil => rfl
  | cons q rest ih =>
    simp only [getRemainingGuaranteed]
    cases hf : a.find? q with
    | none => rfl
    | some s =>
      have hg : s.guaranteedResource.isEmpty = true := h q (by simp) s hf
      have hrest : chainGuaranteesEmpty a rest := by
        intro q2 hq2 s2 hf2
        exact h q2 (by simp [hq2]) s2 hf2
      rw [ih hrest]
      simp [oIsEmpty, hg]

/-- Auxiliary: with every guarantee on the ask chain empty, one queue's
victim loop of the feasibility precheck never succeeds, and it preserves
shapes and size. -/
theorem cpqgVictims_none (queuePath pathQ : String) (orig : Arena)
    (hge : chainGuaranteesEmpty orig (chainOf orig queuePath)) :
    ∀ (vs : List Alloc) (b : Arena),
      (∀ q, (b.find? q).map Snap.shape = (orig.find? q).map Snap.shape) →
      b.snaps.length = orig.snaps.length →
      (cpqgVictims queuePath pathQ vs b).2 = false ∧
        (∀ q, ((cpqgVictims queuePath pathQ vs b).1.find? q).map Snap.shape =
          (orig.find? q).map Snap.shape) ∧
        (cpqgVictims queuePath pathQ vs b).1.snaps.length = orig.snaps.length := by
  intro vs
  induction vs with
  | nil =>
    intro b hb hl
    exact ⟨rfl, hb, hl⟩
  | cons v rest ih =>
    intro b hb hl
    simp only [cpqgVictims]
    have hb1 : ∀ q,
        ((removeAllocationChain b (chainOf b pathQ) v.allocatedResource).find? q).map
            Snap.shape = (orig.find? q).map Snap.shape := by
      intro q
      rw [shape_removeChain]
      exact hb q
    have hl1 : (removeAllocationChain b (chainOf b pathQ)
        v.allocatedResource).snaps.length = orig.snaps.length := by
      rw [length_removeChain]
      exact hl
    have hchain : chainOf (removeAllocationChain b (chainOf b pathQ)
        v.allocatedResource) queuePath = chainOf orig queuePath :=
      chainOf_transport _ orig hb1 hl1 queuePath
    have hrem : getRemainingGuaranteed
        (removeAllocationChain b (chainOf b pathQ) v.allocatedResource)
        (chainOf (removeAllocationChain b (chainOf b pathQ) v.allocatedResource)
          queuePath) = none := by
      rw [hchain]
      exact remaining_none_of_emptyGuar _ _
        (chainGuaranteesEmpty_transport _ orig _ hb1 hge)
    rw [hrem]
    simp only [Option.isSome_none, Bool.false_and, Bool.false_eq_true, if_false]
    exact ih _ hb1 hl1

/-- Auxiliary: with every guarantee on the ask chain empty, the feasibility
precheck's outer loop returns false. -/
theorem cpqgQueues_false (queuePath : String) (orig : Arena)
    (hge : chainGuaranteesEmpty orig (chainOf orig queuePath)) :
    ∀ (entries : List (String × Snap)) (b : Arena),
      (∀ q, (b.find? q).map Snap.shape = (orig.find? q).map Snap.shape) →
      b.snaps.length = orig.snaps.length →
      cpqgQueues queuePath entries b = false := by
  intro entries
  induction entries with
  | nil =>
    intro b _ _
    rfl
  | cons e rest ih =>
    intro b hb hl
    obtain ⟨pq, s⟩ := e
    obtain ⟨hfalse, hb1, hl1⟩ :=
      cpqgVictims_none queuePath pq orig hge s.potentialVictims b hb hl
    simp only [cpqgQueues]
    cases hcv : cpqgVictims queuePath pq s.potentialVictims b with
    | mk a1 flag =>
      rw [hcv] at hfalse hb1 hl1
      simp only at hfalse
      subst hfalse
      exact ih a1 hb1 hl1

/-- C10: when the ask queue's hierarchy defines no guaranteed resource
anywhere (every guarantee on its parent chain is empty), the remaining
guaranteed resource is nil throughout any sequence of allocation mutations,
the feasibility precheck can never succeed, and `TryPreemption` returns
`(nil, false)` whatever the predicate coordinator would answer. -/
theorem C10_no_guarantee_no_preemption (p : Preemptor) (po : Oracle)
    (h : chainGuaranteesEmpty p.allocationsByQueue
      (chainOf p.allocationsByQueue p.queuePath)) :
    TryPreemption p po = tpFail := by
  have hc : checkPreemptionQueueGuarantees p = false := by
    unfold checkPreemptionQueueGuarantees
    simp only [duplicateQueueSnapshots]
    cases hf : p.allocationsByQueue.find? p.queuePath with
    | none => rfl
    | some s =>
      dsimp only
      apply cpqgQueues_false p.queuePath p.allocationsByQueue h
      · intro q
        rw [shape_addChain]
      · rw [length_addChain]
  unfold TryPreemption
  rw [hc]
  rfl

/-- Witness for C10: a two-queue arena with no guarantees anywhere; the
orchestrator fails for the no-plugin oracle. -/
theorem C10_no_guarantee_no_preemption_w :
    chainGuaranteesEmpty exPC10.allocationsByQueue
        (chainOf exPC10.allocationsByQueue exPC10.queuePath) ∧
      TryPreemption exPC10 noPluginOracle = tpFail :=
  ⟨by unfold chainGuaranteesEmpty; decide,
    C10_no_guarantee_no_preemption exPC10 noPluginOracle
      (by unfold chainGuaranteesEmpty; decide)⟩

/-- Auxiliary: availability after one more victim. -/
theorem prefixAvail_append (base : Res) (l : List Alloc) (v : Alloc) :
    prefixAvail base (l ++ [v]) = (prefixAvail base l).addTo v.allocatedResource := by
  simp [prefixAvail, List.foldl_append]

/-- Auxiliary: one accepted victim of pass 2 preserves the loop invariant. -/
theorem p2inv_step (askRes base : Res) (st : P2State) (v : Alloc)
    (arena1 : Arena) (hinv : p2inv askRes base st) :
    p2inv askRes base
      { arena := arena1, avail := st.avail.addTo v.allocatedResource,
        index :=
          if (st.avail.addTo v.allocatedResource).fitIn askRes && st.index < 0
          then Int.ofNat st.results.length else st.index,
        results := st.results ++ [v] } := by
  obtain ⟨ha, hneg, hpos⟩ := hinv
  have havail : st.avail.addTo v.allocatedResource =
      prefixAvail base (st.results ++ [v]) := by
    rw [prefixAvail_append, ha]
  have htake_le : ∀ j, j ≤ st.results.length →
      (st.results ++ [v]).take j = st.results.take j := by
    intro j hj
    exact List.take_append_of_le_length hj
  have htake_all : (st.results ++ [v]).take (st.results.length + 1) =
      st.results ++ [v] := by
    apply List.take_of_length_le
    simp
  have hcast : Int.ofNat st.results.length = (st.results.length : Int) := rfl
  unfold p2inv
  dsimp only
  by_cases hfit : (st.avail.addTo v.allocatedResource).fitIn askRes = true
  · by_cases hold : st.index < 0
    · have hcond : ((st.avail.addTo v.allocatedResource).fitIn askRes
          && decide (st.index < 0)) = true := by
        simp [hfit, hold]
      rw [if_pos hcond]
      refine ⟨havail, ?_, ?_⟩
      · intro hlt
        rw [hcast] at hlt
        omega
      · intro _
        have htn : (Int.ofNat st.results.length).toNat = st.results.length := rfl
        rw [htn]
        refine ⟨by simp, ?_, ?_⟩
        · rw [htake_all, ← havail]
          exact hfit
        · intro j hj
          rw [htake_le j hj]
          exact hneg hold j hj
    · have hcond : ¬(((st.avail.addTo v.allocatedResource).fitIn askRes
          && decide (st.index < 0)) = true) := by
        simp [hold]
      rw [if_neg hcond]
      have h0 : 0 ≤ st.index := by omega
      obtain ⟨hi1, hi2, hi3⟩ := hpos h0
      refine ⟨havail, ?_, ?_⟩
      · intro hlt
        omega
      · intro _
        refine ⟨by simp; omega, ?_, ?_⟩
        · rw [htake_le _ (by omega)]
          exact hi2
        · intro j hj
          rw [htake_le j (by omega)]
          exact hi3 j hj
  · have hfit2 : (st.avail.addTo v.allocatedResource).fitIn askRes = false := by
      simpa using hfit
    have hcond : ¬(((st.avail.addTo v.allocatedResource).fitIn askRes
        && decide (st.index < 0)) = true) := by
      simp [hfit2]
    rw [if_neg hcond]
    by_cases hold : st.index < 0
    · refine ⟨havail, ?_, ?_⟩
      · intro _ j hj
        simp only [List.length_append, List.length_cons, List.length_nil] at hj
        rcases Nat.lt_or_ge j (st.results.length + 1) with hlt | hge
        · have hj2 : j ≤ st.results.length := by omega
          rw [htake_le j hj2]
          exact hneg hold j hj2
        · have hj2 : j = st.results.length + 1 := by omega
          subst hj2
          rw [htake_all, ← havail]
          exact hfit2
      · intro hge
        omega
    · have h0 : 0 ≤ st.index := by omega
      obtain ⟨hi1, hi2, hi3⟩ := hpos h0
      refine ⟨havail, ?_, ?_⟩
      · intro hlt
        omega
      · intro _
        refine ⟨by simp; omega, ?_, ?_⟩
        · rw [htake_le _ (by omega)]
          exact hi2
        · intro j hj
          rw [htake_le j (by omega)]
          exact hi3 j hj

/-- Auxiliary: the second pass of `calculateVictimsByNode` preserves its loop
invariant. -/
theorem cvnPass2_inv (askRes : Res) (qba : List (String × String)) (base : Res) :
    ∀ (vs : List Alloc) (st : P2State), p2inv askRes base st →
      p2inv askRes base (cvnPass2 askRes qba vs st) := by
  intro vs
  induction vs with
  | nil =>
    intro st h
    simpa [cvnPass2] using h
  | cons v rest ih =>
    intro st h
    simp only [cvnPass2]
    cases hl : alookup qba v.allocationKey with
    | none => exact ih st h
    | some qvPath =>
      dsimp only
      cases hf : st.arena.find? qvPath with
      | none => exact ih st h
      | some s =>
        dsimp only
        split
        · exact ih _ (p2inv_step askRes base st v _ h)
        · exact ih _ h

/-- C3 counterexample: a run of the per-node calculator that returns index 0
together with one victim, although adding the first 0 victims (the prefix of
length equal to the returned index) does not make the ask fit on the node:
the returned index is a 0-based victim position, not a prefix length. -/
theorem C3_index_zero_prefix_unfit :
    calculateVictimsByNode exPS2 (initWorkingState exPS2).queueByAlloc (rc 0)
        [exV1] = (0, some [exV1]) ∧
      (prefixAvail (rc 0) (([exV1] : List Alloc).take 0)).fitIn
        exPS2.ask.allocatedResource = false :=
  ⟨rfl, rfl⟩

/-- C3 (amended): whenever `calculateVictimsByNode` returns a non-negative
index together with a victim list, the index is the 0-based position of the
first victim in the returned list whose prefix through it makes the ask fit:
the index is below the list length, adding the allocated resources of the
first index+1 victims to the node's available makes the ask fit, and no
shorter prefix does. -/
theorem C3_index_first_fit (p : Preemptor) (qba : List (String × String))
    (nodeAvailable : Res) (potentialVictims : List Alloc)
    (idx : Int) (victims : List Alloc)
    (h : calculateVictimsByNode p qba nodeAvailable potentialVictims =
      (idx, some victims))
    (hidx : 0 ≤ idx) :
    idx.toNat < victims.length ∧
      (prefixAvail nodeAvailable (victims.take (idx.toNat + 1))).fitIn
        p.ask.allocatedResource = true ∧
      ∀ j ≤ idx.toNat,
        (prefixAvail nodeAvailable (victims.take j)).fitIn
          p.ask.allocatedResource = false := by
  unfold calculateVictimsByNode at h
  by_cases hfit0 : nodeAvailable.fitIn p.ask.allocatedResource = true
  · rw [if_pos hfit0] at h
    rw [Prod.mk.injEq] at h
    obtain ⟨hfst, -⟩ := h
    omega
  · rw [if_neg hfit0] at h
    simp only [duplicateQueueSnapshots] at h
    cases hf1 : p.allocationsByQueue.find? p.queuePath with
    | none =>
      rw [hf1] at h
      dsimp only at h
      have hsnd : (none : Option (List Alloc)) = some victims :=
        congrArg Prod.snd h
      simp at hsnd
    | some s0 =>
      rw [hf1] at h
      dsimp only at h
      split at h
      · have hsnd : (none : Option (List Alloc)) = some victims :=
          congrArg Prod.snd h
        simp at hsnd
      · have hfitF : nodeAvailable.fitIn p.ask.allocatedResource = false := by
          simpa using hfit0
        have hinit : p2inv p.ask.allocatedResource nodeAvailable
            ⟨p.allocationsByQueue, nodeAvailable, -1, []⟩ := by
          refine ⟨rfl, ?_, ?_⟩
          · intro _ j hj
            have hj0 : j = 0 := Nat.le_zero.mp hj
            subst hj0
            simpa [prefixAvail] using hfitF
          · intro h0
            dsimp only at h0
            omega
        have hfinal := fun vs => cvnPass2_inv p.ask.allocatedResource qba
          nodeAvailable vs ⟨p.allocationsByQueue, nodeAvailable, -1, []⟩ hinit
        split at h
        · have hsnd : (none : Option (List Alloc)) = some victims :=
            congrArg Prod.snd h
          simp at hsnd
        · rw [Prod.mk.injEq] at h
          obtain ⟨hfst, hsnd⟩ := h
          have hv := Option.some.inj hsnd
          subst hfst
          subst hv
          exact (hfinal _).2.2 hidx

/-- Witness for the amended C3 at the concrete one-victim run. -/
theorem C3_index_first_fit_w :
    calculateVictimsByNode exPS2 (initWorkingState exPS2).queueByAlloc (rc 0)
        [exV1] = (0, some [exV1]) ∧
      (0 : Int) ≤ 0 ∧ (0 : Int).toNat < ([exV1] : List Alloc).length :=
  ⟨rfl, by decide,
    (C3_index_first_fit exPS2 (initWorkingState exPS2).queueByAlloc (rc 0)
        [exV1] 0 [exV1] rfl (by decide)).1⟩

/-- Auxiliary: writing one cell leaves every other cell unchanged. -/
theorem read_write_ne (st : Store) (i j : Nat) (r : Res) (h : i ≠ j) :
    (st.write i r).read j = st.read j := by
  simp [Store.write, Store.read, List.getD, List.getElem?_set_ne h]

/-- Auxiliary: appending cells leaves existing cells readable unchanged. -/
theorem read_append (st : Store) (tail : List Res) (j : Nat)
    (h : j < st.cells.length) :
    (Store.mk (st.cells ++ tail)).read j = st.read j := by
  simp [Store.read, List.getD, List.getElem?_append, h]

/-- Auxiliary: a successful reference-arena lookup is a member. -/
theorem mem_of_rfind? (a : RArena) (p : String) (s : RSnap)
    (h : a.find? p = some s) : ∃ k, (k, s) ∈ a.snaps := by
  unfold RArena.find? alookup at h
  cases hf : a.snaps.find? (fun e => e.1 == p) with
  | none => rw [hf] at h; simp at h
  | some e =>
    rw [hf] at h
    simp only [Option.map_some', Option.some_inj] at h
    have hm := List.mem_of_find?_eq_some hf
    refine ⟨e.1, ?_⟩
    rw [← h]
    exact hm

/-- Auxiliary: `Duplicate` in the reference model only appends fresh cells,
and every snapshot it caches references only fresh cells. -/
theorem dupSnap_spec (src : RArena) (n : Nat) :
    ∀ (fuel : Nat) (path : String) (st : Store) (cache : RArena),
      n ≤ st.cells.length → arenaRefsAtLeast n cache →
      st.cells <+: (dupSnap src fuel path (st, cache)).1.cells ∧
        arenaRefsAtLeast n (dupSnap src fuel path (st, cache)).2 := by
  intro fuel
  induction fuel with
  | zero =>
    intro path st cache h1 h2
    exact ⟨by simp [dupSnap], h2⟩
  | succ m ih =>
    intro path st cache h1 h2
    simp only [dupSnap]
    cases hc : cache.find? path with
    | some s => exact ⟨List.prefix_refl _, h2⟩
    | none =>
      cases hs : src.find? path with
      | none => exact ⟨List.prefix_refl _, h2⟩
      | some s =>
        dsimp only
        cases hp : s.parent with
        | none =>
          dsimp only [Store.allocCell]
          refine ⟨?_, ?_⟩
          · exact ((((List.prefix_append _ _).trans
              (List.prefix_append _ _)).trans
              (List.prefix_append _ _)).trans
              (List.prefix_append _ _))
          · intro e he
            simp only [RArena.insert, List.mem_append, List.mem_singleton] at he
            rcases he with he | he
            · exact h2 e he
            · subst he
              dsimp only
              refine ⟨by omega, by simp; omega, by simp; omega, by simp; omega⟩
        | some pp =>
          obtain ⟨hpre1, hfr1⟩ := ih pp st cache h1 h2
          have hlen1 : n ≤ (dupSnap src m pp (st, cache)).1.cells.length :=
            le_trans h1 hpre1.length_le
          dsimp only [Store.allocCell]
          refine ⟨?_, ?_⟩
          · exact hpre1.trans ((((List.prefix_append _ _).trans
              (List.prefix_append _ _)).trans
              (List.prefix_append _ _)).trans
              (List.prefix_append _ _))
          · intro e he
            simp only [RArena.insert, List.mem_append, List.mem_singleton] at he
            rcases he with he | he
            · exact (ih pp st cache h1 h2).2 e he
            · subst he
              dsimp only
              refine ⟨by omega, by simp; omega, by simp; omega, by simp; omega⟩

/-- Auxiliary: the full duplication fold only appends fresh cells and yields
a fresh arena. -/
theorem dupFold_spec (src : RArena) (n : Nat) (fuel : Nat) :
    ∀ (entries : List (String × RSnap)) (st : Store) (cache : RArena),
      n ≤ st.cells.length → arenaRefsAtLeast n cache →
      st.cells <+: (entries.foldl (fun acc e => dupSnap src fuel e.1 acc)
          (st, cache)).1.cells ∧
        arenaRefsAtLeast n (entries.foldl (fun acc e => dupSnap src fuel e.1 acc)
          (st, cache)).2 := by
  intro entries
  induction entries with
  | nil =>
    intro st cache h1 h2
    exact ⟨List.prefix_refl _, h2⟩
  | cons e rest ihe =>
    intro st cache h1 h2
    simp only [List.foldl_cons]
    obtain ⟨hpre1, hfr1⟩ := dupSnap_spec src n fuel e.1 st cache h1 h2
    cases hds : dupSnap src fuel e.1 (st, cache) with
    | mk st1 cache1 =>
      rw [hds] at hpre1 hfr1
      dsimp only at hpre1 hfr1
      have hlen1 : n ≤ st1.cells.length := le_trans h1 hpre1.length_le
      obtain ⟨hpre2, hfr2⟩ := ihe st1 cache1 hlen1 hfr1
      exact ⟨hpre1.trans hpre2, hfr2⟩

/-- Auxiliary: mutations through an arena whose allocation references are all
at least `n` never change a cell below `n`. -/
theorem read_addR_high (a : RArena) (n : Nat) (hfr : arenaRefsAtLeast n a)
    (chain : List String) (r : Res) (j : Nat) (hj : j < n) :
    ∀ st : Store, (addAllocationR st a chain r).read j = st.read j := by
  induction chain with
  | nil => intro st; rfl
  | cons p rest ih =>
    intro st
    simp only [addAllocationR]
    cases hf : a.find? p with
    | none => exact ih st
    | some s =>
      dsimp only
      obtain ⟨k, hk⟩ := mem_of_rfind? a p s hf
      have hge := (hfr (k, s) hk).1
      rw [read_write_ne _ _ _ _ (by dsimp only at hge; omega)]
      exact ih st

/-- Auxiliary: remove version of `read_addR_high`. -/
theorem read_removeR_high (a : RArena) (n : Nat) (hfr : arenaRefsAtLeast n a)
    (chain : List String) (r : Res) (j : Nat) (hj : j < n) :
    ∀ st : Store, (removeAllocationR st a chain r).read j = st.read j := by
  induction chain with
  | nil => intro st; rfl
  | cons p rest ih =>
    intro st
    simp only [removeAllocationR]
    cases hf : a.find? p with
    | none => exact ih st
    | some s =>
      dsimp only
      obtain ⟨k, hk⟩ := mem_of_rfind? a p s hf
      have hge := (hfr (k, s) hk).1
      rw [read_write_ne _ _ _ _ (by dsimp only at hge; omega)]
      exact ih st

/-- Auxiliary: mutations through an arena whose allocation references are all
below `n` never change a cell at `n` or above. -/
theorem read_addR_low (a : RArena) (n : Nat) (hbl : arenaRefsBelow n a)
    (chain : List String) (r : Res) (j : Nat) (hj : n ≤ j) :
    ∀ st : Store, (addAllocationR st a chain r).read j = st.read j := by
  induction chain with
  | nil => intro st; rfl
  | cons p rest ih =>
    intro st
    simp only [addAllocationR]
    cases hf : a.find? p with
    | none => exact ih st
    | some s =>
      dsimp only
      obtain ⟨k, hk⟩ := mem_of_rfind? a p s hf
      have hlt := (hbl (k, s) hk).1
      rw [read_write_ne _ _ _ _ (by dsimp only at hlt; omega)]
      exact ih st

/-- Auxiliary: remove version of `read_addR_low`. -/
theorem read_removeR_low (a : RArena) (n : Nat) (hbl : arenaRefsBelow n a)
    (chain : List String) (r : Res) (j : Nat) (hj : n ≤ j) :
    ∀ st : Store, (removeAllocationR st a chain r).read j = st.read j := by
  induction chain with
  | nil => intro st; rfl
  | cons p rest ih =>
    intro st
    simp only [removeAllocationR]
    cases hf : a.find? p with
    | none => exact ih st
    | some s =>
      dsimp only
      obtain ⟨k, hk⟩ := mem_of_rfind? a p s hf
      have hlt := (hbl (k, s) hk).1
      rw [read_write_ne _ _ _ _ (by dsimp only at hlt; omega)]
      exact ih st

/-- Auxiliary: arbitrary mutation sequences through a fresh arena leave all
low cells unchanged. -/
theorem read_applyOpsR_high (a : RArena) (n : Nat) (hfr : arenaRefsAtLeast n a) :
    ∀ (ops : List (Bool × String × Res)) (st : Store) (j : Nat), j < n →
      (applyOpsR a ops st).read j = st.read j := by
  intro ops
  induction ops with
  | nil => intro st j _; rfl
  | cons op rest ih =>
    intro st j hj
    simp only [applyOpsR]
    rw [ih _ j hj]
    unfold applyOpR
    by_cases hb : op.1 = true
    · rw [if_pos hb]
      exact read_addR_high a n hfr _ _ j hj st
    · rw [if_neg hb]
      exact read_removeR_high a n hfr _ _ j hj st

/-- Auxiliary: arbitrary mutation sequences through a low arena leave all
fresh cells unchanged. -/
theorem read_applyOpsR_low (a : RArena) (n : Nat) (hbl : arenaRefsBelow n a) :
    ∀ (ops : List (Bool × String × Res)) (st : Store) (j : Nat), n ≤ j →
      (applyOpsR a ops st).read j = st.read j := by
  intro ops
  induction ops with
  | nil => intro st j _; rfl
  | cons op rest ih =>
    intro st j hj
    simp only [applyOpsR]
    rw [ih _ j hj]
    unfold applyOpR
    by_cases hb : op.1 = true
    · rw [if_pos hb]
      exact read_addR_low a n hbl _ _ j hj st
    · rw [if_neg hb]
      exact read_removeR_low a n hbl _ _ j hj st

/-- C6: duplicating a snapshot tree yields a fully independent copy: the
duplicate references only freshly allocated cells, any sequence of
`AddAllocation`/`RemoveAllocation` mutations applied through the duplicate
leaves every resource cell referenced by the original (allocated, preempting,
max, guaranteed) holding exactly its original value, and, conversely, any
mutation sequence applied through the original leaves every cell referenced
by the duplicate unchanged. -/
theorem C6_duplicate_independent (st : Store) (orig : RArena)
    (hwf : arenaRefsBelow st.cells.length orig) :
    (∀ (ops : List (Bool × String × Res)) (e : String × RSnap),
      e ∈ orig.snaps → ∀ i ∈ e.2.refs,
        (applyOpsR (duplicateTreeR st orig).2 ops
          (duplicateTreeR st orig).1).read i = st.read i) ∧
      (∀ (ops : List (Bool × String × Res)) (e : String × RSnap),
        e ∈ (duplicateTreeR st orig).2.snaps → ∀ i ∈ e.2.refs,
          (applyOpsR orig ops (duplicateTreeR st orig).1).read i =
            (duplicateTreeR st orig).1.read i) := by
  obtain ⟨hpre, hfresh⟩ :=
    dupFold_spec orig st.cells.length (orig.snaps.length + 1) orig.snaps st
      ⟨[]⟩ (le_refl _) (by intro e he; simp at he)
  obtain ⟨tail, htail⟩ := hpre
  constructor
  · intro ops e he i hi
    have hib : i < st.cells.length := by
      obtain ⟨h1, h2, h3, h4⟩ := hwf e he
      simp only [RSnap.refs, List.mem_cons, List.mem_singleton] at hi
      rcases hi with rfl | rfl | rfl | hi
      · exact h1
      · exact h2
      · exact h3
      · simp at hi
        subst hi
        exact h4
    rw [read_applyOpsR_high (duplicateTreeR st orig).2 st.cells.length hfresh
      ops _ i hib]
    have hstore : (duplicateTreeR st orig).1.cells = st.cells ++ tail := htail.symm
    unfold Store.read
    rw [hstore]
    simp [List.getD, List.getElem?_append, hib]
  · intro ops e he i hi
    have hig : st.cells.length ≤ i := by
      obtain ⟨h1, h2, h3, h4⟩ := hfresh e he
      simp only [RSnap.refs, List.mem_cons, List.mem_singleton] at hi
      rcases hi with rfl | rfl | rfl | hi
      · exact h1
      · exact h2
      · exact h3
      · simp at hi
        subst hi
        exact h4
    exact read_applyOpsR_low orig st.cells.length hwf ops _ i hig

/-- Auxiliary: a successful association-list lookup is a member. -/
theorem alookup_mem {α : Type} (m : List (String × α)) (k : String) (x : α)
    (h : alookup m k = some x) : (k, x) ∈ m := by
  unfold alookup at h
  cases hf : m.find? (fun p => p.1 == k) with
  | none => rw [hf] at h; simp at h
  | some e =>
    rw [hf] at h
    simp only [Option.map_some', Option.some_inj] at h
    have hm := List.mem_of_find?_eq_some hf
    have hk : e.1 = k := by simpa using List.find?_some hf
    rw [← h, ← hk]
    exact hm

/-- Auxiliary: stable insertion introduces no new elements. -/
theorem mem_stableInsert {α : Type} (less : α → α → Bool) (y : α) :
    ∀ (l : List α) (x : α), x ∈ stableInsert less y l → x = y ∨ x ∈ l := by
  intro l
  induction l with
  | nil =>
    intro x hx
    simp [stableInsert] at hx
    exact Or.inl hx
  | cons z zs ih =>
    intro x hx
    simp only [stableInsert] at hx
    by_cases hc : less y z = true
    · rw [if_pos hc] at hx
      simp only [List.mem_cons] at hx
      rcases hx with hx | hx
      · exact Or.inl hx
      · exact Or.inr (by simpa using hx)
    · rw [if_neg hc] at hx
      simp only [List.mem_cons] at hx
      rcases hx with hx | hx
      · exact Or.inr (by simp [hx])
      · rcases ih x hx with hx2 | hx2
        · exact Or.inl hx2
        · exact Or.inr (by simp [hx2])

/-- Auxiliary: stable sorting introduces no new elements. -/
theorem mem_stableSort {α : Type} (less : α → α → Bool) (l : List α) (x : α)
    (h : x ∈ stableSort less l) : x ∈ l := by
  suffices haux : ∀ (l2 : List α) (acc : List α), x ∈ l2.foldl
      (fun acc2 y => stableInsert less y acc2) acc → x ∈ acc ∨ x ∈ l2 by
    rcases haux l [] h with hx | hx
    · simp at hx
    · exact hx
  intro l2
  induction l2 with
  | nil =>
    intro acc hx
    exact Or.inl hx
  | cons y ys ih =>
    intro acc hx
    simp only [List.foldl_cons] at hx
    rcases ih (stableInsert less y acc) hx with hx2 | hx2
    · rcases mem_stableInsert less y acc x hx2 with hx3 | hx3
      · exact Or.inr (by simp [hx3])
      · exact Or.inl hx3
    · exact Or.inr (by simp [hx2])

/-- Auxiliary: appending a victim satisfying `P` to a by-node map whose
victims all satisfy `P` keeps the property. -/
theorem byNodeAppend_mem (P : Alloc → Prop) (m : List (String × List Alloc))
    (hm : ∀ e ∈ m, ∀ x ∈ e.2, P x) (k : String) (v : Alloc) (hv : P v) :
    ∀ e ∈ byNodeAppend m k v, ∀ x ∈ e.2, P x := by
  intro e he x hx
  unfold byNodeAppend at he
  cases hl : alookup m k with
  | some l0 =>
    rw [hl] at he
    simp only [List.mem_map] at he
    rcases he with ⟨e0, he0, heq⟩
    by_cases hek : (e0.1 == k) = true
    · rw [if_pos hek] at heq
      subst heq
      simp only [List.mem_append, List.mem_singleton] at hx
      rcases hx with hx | hx
      · exact hm e0 he0 x hx
      · subst hx
        exact hv
    · rw [if_neg hek] at heq
      subst heq
      exact hm e0 he0 x hx
  | none =>
    rw [hl] at he
    simp only [List.mem_append, List.mem_singleton] at he
    rcases he with he | he
    · exact hm e he x hx
    · subst he
      simp only [List.mem_singleton] at hx
      subst hx
      exact hv

/-- Auxiliary: the inner victim fold of the working-state builder preserves
the by-node victim property. -/
theorem victimFold_mem (P : Alloc → Prop) (qp : String) :
    ∀ (vl : List Alloc)
      (acc : List (String × List Alloc) × List (String × String)),
      (∀ v ∈ vl, P v) →
      (∀ e ∈ acc.1, ∀ x ∈ e.2, P x) →
      ∀ e ∈ (vl.foldl (fun acc2 v =>
          (byNodeAppend acc2.1 v.nodeID v, aset acc2.2 v.allocationKey qp))
        acc).1, ∀ x ∈ e.2, P x := by
  intro vl
  induction vl with
  | nil =>
    intro acc _ hacc
    exact hacc
  | cons v vs ih =>
    intro acc hvl hacc
    simp only [List.foldl_cons]
    apply ih
    · intro w hw
      exact hvl w (by simp [hw])
    · exact byNodeAppend_mem P acc.1 hacc v.nodeID v (hvl v (by simp))

/-- Auxiliary: the queue fold of the working-state builder preserves the
by-node victim property, given that all arena victims satisfy it. -/
theorem buildVictimMaps_mem (P : Alloc → Prop) :
    ∀ (entries : List (String × Snap))
      (acc : List (String × List Alloc) × List (String × String)),
      (∀ en ∈ entries, ∀ v ∈ en.2.potentialVictims, P v) →
      (∀ e ∈ acc.1, ∀ x ∈ e.2, P x) →
      ∀ e ∈ (buildVictimMaps entries acc).1, ∀ x ∈ e.2, P x := by
  intro entries
  induction entries with
  | nil =>
    intro acc _ hacc
    exact hacc
  | cons en rest ih =>
    intro acc hen hacc
    obtain ⟨qp, s⟩ := en
    simp only [buildVictimMaps]
    apply ih
    · intro e2 he2
      exact hen e2 (by simp [he2])
    · exact victimFold_mem P qp s.potentialVictims acc
        (fun v hv => hen (qp, s) (by simp) v hv) hacc

/-- Auxiliary: the node walk of the working-state builder only shrinks the
by-node map. -/
theorem walkNodes_mem (P : Alloc → Prop) (askKey : String) (askRes : Res) :
    ∀ (nodes : List Node)
      (acc : List (String × List Alloc) × List (String × Res)),
      (∀ e ∈ acc.1, ∀ x ∈ e.2, P x) →
      ∀ e ∈ (walkNodes askKey askRes nodes acc).1, ∀ x ∈ e.2, P x := by
  intro nodes
  induction nodes with
  | nil =>
    intro acc hacc
    exact hacc
  | cons n rest ih =>
    intro acc hacc
    obtain ⟨byNode, availMap⟩ := acc
    simp only [walkNodes]
    by_cases hu : nodeUnusable n askKey askRes = true
    · rw [if_pos hu]
      apply ih
      intro e he
      unfold adelete at he
      exact hacc e (List.mem_of_mem_filter he)
    · rw [if_neg hu]
      apply ih
      exact hacc

/-- Auxiliary: every victim recorded in the working state's by-node map comes
from the arena's potential victims, hence is non-negative under the arena
hypothesis. -/
theorem initWorkingState_byNode_nonneg (p : Preemptor)
    (hnn : arenaVictimsNonneg p.allocationsByQueue) :
    ∀ e ∈ (initWorkingState p).allocationsByNode, ∀ x ∈ e.2,
      resNonneg x.allocatedResource := by
  intro e he x hx
  unfold initWorkingState at he
  cases hbv : buildVictimMaps p.allocationsByQueue.snaps ([], []) with
  | mk byNode byAlloc =>
    rw [hbv] at he
    dsimp only at he
    cases hwn : walkNodes p.ask.allocationKey p.ask.allocatedResource
        p.iterator (byNode, []) with
    | mk byNode2 availMap =>
      rw [hwn] at he
      dsimp only at he
      simp only [List.mem_map] at he
      rcases he with ⟨e0, he0, heq⟩
      subst heq
      dsimp only at hx
      have hx0 := mem_stableSort victimLess e0.2 x hx
      have hb : ∀ e2 ∈ byNode, ∀ v ∈ e2.2, resNonneg v.allocatedResource := by
        have hbm := buildVictimMaps_mem (fun v => resNonneg v.allocatedResource)
          p.allocationsByQueue.snaps ([], [])
          (fun en hen v2 hv2 => hnn en hen v2 hv2)
          (by intro e3 he3; simp at he3)
        rw [hbv] at hbm
        exact hbm
      have hw : ∀ e2 ∈ byNode2, ∀ v ∈ e2.2, resNonneg v.allocatedResource := by
        have hwm := walkNodes_mem (fun v => resNonneg v.allocatedResource)
          p.ask.allocationKey p.ask.allocatedResource p.iterator (byNode, [])
          (by intro e3 he3 x3 hx3; exact hb e3 he3 x3 hx3)
        rw [hwn] at hwm
        exact hwm
      exact hw e0 he0 x hx0

/-- Auxiliary: the first pass of `calculateVictimsByNode` draws its head and
tail lists from its input. -/
theorem cvnPass1_mem (askRes : Res) (queuePath : String)
    (qba : List (String × String)) :
    ∀ (vs : List Alloc) (st : P1State) (v : Alloc),
      v ∈ (cvnPass1 askRes queuePath qba vs st).head ∨
        v ∈ (cvnPass1 askRes queuePath qba vs st).tail →
      v ∈ st.head ∨ v ∈ st.tail ∨ v ∈ vs := by
  intro vs
  induction vs with
  | nil =>
    intro st v hv
    simp only [cvnPass1] at hv
    rcases hv with hv | hv
    · exact Or.inl hv
    · exact Or.inr (Or.inl hv)
  | cons w ws ih =>
    intro st v hv
    simp only [cvnPass1] at hv
    cases hl : alookup qba w.allocationKey with
    | none =>
      rw [hl] at hv
      rcases ih st v hv with h | h | h
      · exact Or.inl h
      · exact Or.inr (Or.inl h)
      · exact Or.inr (Or.inr (by simp [h]))
    | some qvPath =>
      rw [hl] at hv
      dsimp only at hv
      cases hf : st.arena.find? qvPath with
      | none =>
        rw [hf] at hv
        rcases ih st v hv with h | h | h
        · exact Or.inl h
        · exact Or.inr (Or.inl h)
        · exact Or.inr (Or.inr (by simp [h]))
      | some s =>
        rw [hf] at hv
        dsimp only at hv
        split at hv
        · split at hv
          · -- break: state returned directly
            rcases hv with hv | hv
            · exact Or.inl hv
            · exact Or.inr (Or.inl hv)
          · split at hv
            · -- tail case
              rcases ih _ v hv with h | h | h
              · exact Or.inl h
              · simp only [List.mem_append, List.mem_singleton] at h
                rcases h with h | h
                · exact Or.inr (Or.inl h)
                · exact Or.inr (Or.inr (by simp [h]))
              · exact Or.inr (Or.inr (by simp [h]))
            · -- head case
              rcases ih _ v hv with h | h | h
              · simp only [List.mem_append, List.mem_singleton] at h
                rcases h with h | h
                · exact Or.inl h
                · exact Or.inr (Or.inr (by simp [h]))
              · exact Or.inr (Or.inl h)
              · exact Or.inr (Or.inr (by simp [h]))
        · -- rejected
          rcases ih _ v hv with h | h | h
          · exact Or.inl h
          · exact Or.inr (Or.inl h)
          · exact Or.inr (Or.inr (by simp [h]))

/-- Auxiliary: the second pass of `calculateVictimsByNode` draws its results
from its input. -/
theorem cvnPass2_mem (askRes : Res) (qba : List (String × String)) :
    ∀ (vs : List Alloc) (st : P2State) (v : Alloc),
      v ∈ (cvnPass2 askRes qba vs st).results →
      v ∈ st.results ∨ v ∈ vs := by
  intro vs
  induction vs with
  | nil =>
    intro st v hv
    simp only [cvnPass2] at hv
    exact Or.inl hv
  | cons w ws ih =>
    intro st v hv
    simp only [cvnPass2] at hv
    cases hl : alookup qba w.allocationKey with
    | none =>
      rw [hl] at hv
      rcases ih st v hv with h | h
      · exact Or.inl h
      · exact Or.inr (by simp [h])
    | some qvPath =>
      rw [hl] at hv
      dsimp only at hv
      cases hf : st.arena.find? qvPath with
      | none =>
        rw [hf] at hv
        rcases ih st v hv with h | h
        · exact Or.inl h
        · exact Or.inr (by simp [h])
      | some s =>
        rw [hf] at hv
        dsimp only at hv
        split at hv
        · rcases ih _ v hv with h | h
          · simp only [List.mem_append, List.mem_singleton] at h
            rcases h with h | h
            · exact Or.inl h
            · exact Or.inr (by simp [h])
          · exact Or.inr (by simp [h])
        · rcases ih _ v hv with h | h
          · exact Or.inl h
          · exact Or.inr (by simp [h])

/-- Auxiliary: the victims returned by `calculateVictimsByNode` come from its
input victim list. -/
theorem calc_mem (p : Preemptor) (qba : List (String × String))
    (nodeAvailable : Res) (pv : List Alloc) (idx : Int)
    (victims : List Alloc)
    (h : calculateVictimsByNode p qba nodeAvailable pv = (idx, some victims)) :
    ∀ v ∈ victims, v ∈ pv := by
  unfold calculateVictimsByNode at h
  by_cases hfit0 : nodeAvailable.fitIn p.ask.allocatedResource = true
  · rw [if_pos hfit0] at h
    rw [Prod.mk.injEq] at h
    obtain ⟨-, hsnd⟩ := h
    have hv := Option.some.inj hsnd
    subst hv
    intro v hv
    simp at hv
  · rw [if_neg hfit0] at h
    simp only [duplicateQueueSnapshots] at h
    cases hf1 : p.allocationsByQueue.find? p.queuePath with
    | none =>
      rw [hf1] at h
      dsimp only at h
      have hsnd : (none : Option (List Alloc)) = some victims :=
        congrArg Prod.snd h
      simp at hsnd
    | some s0 =>
      rw [hf1] at h
      dsimp only at h
      split at h
      · have hsnd : (none : Option (List Alloc)) = some victims :=
          congrArg Prod.snd h
        simp at hsnd
      · split at h
        · have hsnd : (none : Option (List Alloc)) = some victims :=
            congrArg Prod.snd h
          simp at hsnd
        · rw [Prod.mk.injEq] at h
          obtain ⟨-, hsnd⟩ := h
          have hv := Option.some.inj hsnd
          subst hv
          intro v hv
          have h2 := cvnPass2_mem p.ask.allocatedResource qba _ _ v hv
          rcases h2 with h2 | h2
          · simp at h2
          · have h1 := cvnPass1_mem p.ask.allocatedResource p.queuePath qba pv
              ⟨p.allocationsByQueue, nodeAvailable, [], []⟩ v
              (by
                simp only [List.mem_append] at h2
                rcases h2 with h2 | h2
                · exact Or.inl h2
                · exact Or.inr h2)
            rcases h1 with h1 | h1 | h1
            · simp at h1
            · simp at h1
            · exact h1

/-- Auxiliary: the victims-by-node map built by `tryNodes` contains only
victims drawn from the working state's by-node lists. -/
theorem buildChecks_vbn_mem (p : Preemptor) (ws : WorkingState)
    (P : Alloc → Prop)
    (hmap : ∀ e ∈ ws.allocationsByNode, ∀ x ∈ e.2, P x) :
    ∀ (nm : List (String × Res)), ∀ e ∈ (buildChecks p ws nm).2, ∀ v ∈ e.2,
      P v := by
  intro nm
  induction nm with
  | nil =>
    intro e he
    simp [buildChecks] at he
  | cons en rest ih =>
    intro e he v hv
    obtain ⟨nid, nodeAvailable⟩ := en
    simp only [buildChecks] at he
    cases hr : (calculateVictimsByNode p ws.queueByAlloc nodeAvailable
        ((alookup ws.allocationsByNode nid).getD [])).2 with
    | none =>
      rw [hr] at he
      exact ih e he v hv
    | some victims =>
      rw [hr] at he
      have hvic : ∀ w ∈ victims, P w := by
        intro w hw
        have hcv : calculateVictimsByNode p ws.queueByAlloc nodeAvailable
            ((alookup ws.allocationsByNode nid).getD []) =
            ((calculateVictimsByNode p ws.queueByAlloc nodeAvailable
              ((alookup ws.allocationsByNode nid).getD [])).1, some victims) := by
          rw [← hr]
        have hm := calc_mem p ws.queueByAlloc nodeAvailable
          ((alookup ws.allocationsByNode nid).getD []) _ victims hcv w hw
        cases hl : alookup ws.allocationsByNode nid with
        | none => rw [hl] at hm; simp at hm
        | some lst =>
          rw [hl] at hm
          simp only [Option.getD_some] at hm
          exact hmap (nid, lst) (alookup_mem _ _ _ hl) w hm
      dsimp only at he
      split at he
      · simp only [List.mem_cons] at he
        rcases he with he | he
        · subst he
          exact hvic v hv
        · exact ih e he v hv
      · simp only [List.mem_cons] at he
        rcases he with he | he
        · subst he
          exact hvic v hv
        · exact ih e he v hv

/-- Auxiliary: the additional-victim loop draws its picks from its input. -/
theorem cavLoop_mem (queuePath : String) (qba : List (String × String)) :
    ∀ (vs : List Alloc) (a : Arena) (victims : List Alloc) (v : Alloc),
      v ∈ (cavLoop queuePath qba vs (a, victims)).2 →
      v ∈ victims ∨ v ∈ vs := by
  intro vs
  induction vs with
  | nil =>
    intro a victims v hv
    simp only [cavLoop] at hv
    exact Or.inl hv
  | cons w ws ih =>
    intro a victims v hv
    simp only [cavLoop] at hv
    cases hl : alookup qba w.allocationKey with
    | none =>
      rw [hl] at hv
      rcases ih a victims v hv with h | h
      · exact Or.inl h
      · exact Or.inr (by simp [h])
    | some qvPath =>
      rw [hl] at hv
      dsimp only at hv
      cases hf : a.find? qvPath with
      | none =>
        rw [hf] at hv
        rcases ih a victims v hv with h | h
        · exact Or.inl h
        · exact Or.inr (by simp [h])
      | some s =>
        rw [hf] at hv
        dsimp only at hv
        split at hv
        · split at hv
          · exact Or.inl hv
          · split at hv
            · rcases ih _ _ v hv with h | h
              · simp only [List.mem_append, List.mem_singleton] at h
                rcases h with h | h
                · exact Or.inl h
                · exact Or.inr (by simp [h])
              · exact Or.inr (by simp [h])
            · rcases ih _ _ v hv with h | h
              · exact Or.inl h
              · exact Or.inr (by simp [h])
        · rcases ih _ _ v hv with h | h
          · exact Or.inl h
          · exact Or.inr (by simp [h])

/-- Auxiliary: the additional-victim candidates come from the arena's
potential victims. -/
theorem cavCollect_mem (seen : List String) :
    ∀ (entries : List (String × Snap)) (v : Alloc),
      v ∈ cavCollect seen entries →
      ∃ e ∈ entries, v ∈ e.2.potentialVictims := by
  intro entries
  induction entries with
  | nil =>
    intro v hv
    simp [cavCollect] at hv
  | cons e rest ih =>
    intro v hv
    obtain ⟨qp, s⟩ := e
    simp only [cavCollect, List.mem_append] at hv
    rcases hv with hv | hv
    · exact ⟨(qp, s), by simp, List.mem_of_mem_filter hv⟩
    · obtain ⟨e2, he2, hv2⟩ := ih v hv
      exact ⟨e2, by simp [he2], hv2⟩

/-- Auxiliary: the extra victims of `calculateAdditionalVictims` come from
the arena's potential victims. -/
theorem cav_mem (p : Preemptor) (qba : List (String × String))
    (nodeVictims extras : List Alloc)
    (h : calculateAdditionalVictims p qba nodeVictims = some extras) :
    ∀ v ∈ extras, ∃ e ∈ p.allocationsByQueue.snaps,
      v ∈ e.2.potentialVictims := by
  unfold calculateAdditionalVictims at h
  simp only [duplicateQueueSnapshots] at h
  cases hf : p.allocationsByQueue.find? p.queuePath with
  | none => rw [hf] at h; simp at h
  | some s0 =>
    rw [hf] at h
    dsimp only at h
    cases hrs : cavRemoveSeen qba nodeVictims (p.allocationsByQueue, []) with
    | mk a1 seen =>
      rw [hrs] at h
      dsimp only at h
      cases hcl : cavLoop p.queuePath qba
          (stableSort compareAllocationLess
            (cavCollect seen p.allocationsByQueue.snaps)) (a1, []) with
      | mk a2 victims =>
        rw [hcl] at h
        dsimp only at h
        split at h
        · have hex := Option.some.inj h
          subst hex
          intro v hv
          have h1 := cavLoop_mem p.queuePath qba
            (stableSort compareAllocationLess
              (cavCollect seen p.allocationsByQueue.snaps)) a1 [] v
            (by rw [hcl]; exact hv)
          rcases h1 with h1 | h1
          · simp at h1
          · have h2 := mem_stableSort compareAllocationLess _ v h1
            exact cavCollect_mem seen p.allocationsByQueue.snaps v h2
        · simp at h

/-- Auxiliary: the victim sum over one more victim. -/
theorem sumAllocs_append (l : List Alloc) (v : Alloc) :
    sumAllocs (l ++ [v]) = (sumAllocs l).addTo v.allocatedResource := by
  simp [sumAllocs, List.foldl_append]

/-- Auxiliary: a structurally non-negative vector contributes non-negatively
to every key. -/
theorem listContrib_nonneg (r : Res) (h : resNonneg r) (k : String) :
    0 ≤ listContrib r.res k := by
  unfold listContrib
  apply List.sum_nonneg
  intro x hx
  rcases List.mem_map.mp hx with ⟨q, hq, rfl⟩
  by_cases hqk : (q.1 == k) = true
  · rw [if_pos hqk]
    exact h q hq
  · rw [if_neg hqk]

/-- Auxiliary: the final victim filter maintains that the collected victims'
sum is below the running total, and that either the collected sum already
covers the ask on every component of the ask or it still equals the running
total. -/
theorem finalFilter_inv (askRes : Res) (fitInFlag : Bool) (nodeID : String) :
    ∀ (vs : List Alloc) (total : Res) (finalV : List Alloc),
      (∀ v ∈ vs, resNonneg v.allocatedResource) →
      (∀ k, (sumAllocs finalV).get k ≤ total.get k) →
      ((∀ q ∈ askRes.res, askRes.get q.1 ≤ (sumAllocs finalV).get q.1) ∨
        (∀ k, (sumAllocs finalV).get k = total.get k)) →
      (∀ k, (sumAllocs (finalFilter askRes fitInFlag nodeID vs total finalV).1).get k ≤
          (finalFilter askRes fitInFlag nodeID vs total finalV).2.get k) ∧
        ((∀ q ∈ askRes.res, askRes.get q.1 ≤
            (sumAllocs (finalFilter askRes fitInFlag nodeID vs total finalV).1).get q.1) ∨
          (∀ k, (sumAllocs (finalFilter askRes fitInFlag nodeID vs total finalV).1).get k =
            (finalFilter askRes fitInFlag nodeID vs total finalV).2.get k)) := by
  intro vs
  induction vs with
  | nil =>
    intro total finalV _ h1 h2
    exact ⟨h1, h2⟩
  | cons w ws ih =>
    intro total finalV hnn h1 h2
    have hwnn : resNonneg w.allocatedResource := hnn w (by simp)
    have hwsnn : ∀ v ∈ ws, resNonneg v.allocatedResource :=
      fun v hv => hnn v (by simp [hv])
    simp only [finalFilter]
    split
    · exact ih total finalV hwsnn h1 h2
    · by_cases hg : askRes.sgtOnlyExisting total = true
      · rw [if_pos hg]
        rcases h2 with hleft | hright
        · exfalso
          unfold Res.sgtOnlyExisting at hg
          rcases List.any_eq_true.mp hg with ⟨q, hq, hlt⟩
          have hlt2 : total.get q.1 < askRes.get q.1 := by simpa using hlt
          have := le_trans (hleft q hq) (h1 q.1)
          omega
        · apply ih _ _ hwsnn
          · intro k
            rw [sumAllocs_append, get_addTo, get_addTo]
            have := hright k
            omega
          · right
            intro k
            rw [sumAllocs_append, get_addTo, get_addTo]
            have := hright k
            omega
      · have hg2 : askRes.sgtOnlyExisting total = false := by simpa using hg
        rw [hg2]
        simp only [Bool.false_eq_true, if_false]
        apply ih _ _ hwsnn
        · intro k
          rw [get_addTo]
          have hc := listContrib_nonneg w.allocatedResource hwnn k
          have := h1 k
          omega
        · left
          intro q hq
          have hcov : ∀ q2 ∈ askRes.res, askRes.get q2.1 ≤ total.get q2.1 := by
            intro q2 hq2
            unfold Res.sgtOnlyExisting at hg2
            have := List.any_eq_false.mp hg2 q2 hq2
            simp at this
            omega
          rcases h2 with hleft | hright
          · exact hleft q hq
          · rw [hright q.1]
            exact hcov q hq

/-- Auxiliary: when the chosen node does not fit the ask on its own, every
victim collected by the final filter lies on the chosen node. -/
theorem finalFilter_nodes (askRes : Res) (nodeID : String) :
    ∀ (vs : List Alloc) (total : Res) (finalV : List Alloc),
      (∀ v ∈ finalV, v.nodeID = nodeID) →
      ∀ v ∈ (finalFilter askRes false nodeID vs total finalV).1,
        v.nodeID = nodeID := by
  intro vs
  induction vs with
  | nil =>
    intro total finalV hf v hv
    exact hf v hv
  | cons w ws ih =>
    intro total finalV hf v hv
    simp only [finalFilter] at hv
    by_cases hn : (w.nodeID == nodeID) = true
    · rw [if_neg (by simp [hn])] at hv
      split at hv
      · apply ih _ _ ?_ v hv
        intro v2 hv2
        simp only [List.mem_append, List.mem_singleton] at hv2
        rcases hv2 with hv2 | hv2
        · exact hf v2 hv2
        · subst hv2
          simpa using hn
      · exact ih _ _ hf v hv
    · rw [if_pos (by simp [hn])] at hv
      exact ih _ _ hf v hv

/-- C1: whenever `TryPreemption` returns success, the component-wise sum of
the allocated resources of the final (committed) victims covers the ask on
every component present in the ask, and, when the chosen node alone did not
already fit the ask with zero victims, every committed victim lies on the
returned node.  The predicate coordinator is abstracted by any provenance-
respecting oracle, and allocations carry non-negative resource vectors. -/
theorem C1_shortfall_guard (p : Preemptor) (po : Oracle) (outcome : TPOutcome)
    (hnn : arenaVictimsNonneg p.allocationsByQueue)
    (hpo : oracleProvenance po)
    (hout : TryPreemption p po = outcome)
    (hok : outcome.ok = true) :
    ∃ nodeID, outcome.result = some nodeID ∧
      (∀ q ∈ p.ask.allocatedResource.res,
        p.ask.allocatedResource.get q.1 ≤
          (sumAllocs outcome.committed).get q.1) ∧
      (((alookup (initWorkingState p).nodeAvailableMap nodeID).getD
          Res.zero).fitIn p.ask.allocatedResource = false →
        ∀ v ∈ outcome.committed, v.nodeID = nodeID) := by
  unfold TryPreemption at hout
  split at hout
  · rw [← hout] at hok
    simp [tpFail] at hok
  · dsimp only at hout
    cases h1 : tryNodes p (initWorkingState p) po with
    | none =>
      rw [h1] at hout
      rw [← hout] at hok
      simp [tpFail] at hok
    | some pr =>
      obtain ⟨nodeID, nodeVictims⟩ := pr
      rw [h1] at hout
      dsimp only at hout
      cases h2 : calculateAdditionalVictims p
          (initWorkingState p).queueByAlloc nodeVictims with
      | none =>
        rw [h2] at hout
        rw [← hout] at hok
        simp [tpFail] at hok
      | some extraVictims =>
        rw [h2] at hout
        dsimp only at hout
        split at hout
        · rw [← hout] at hok
          simp [tpFail] at hok
        · split at hout
          · rw [← hout] at hok
            simp [tpFail] at hok
          · rename_i hempty hguard
            have hnv : ∀ v ∈ nodeVictims, resNonneg v.allocatedResource := by
              intro v hv
              unfold tryNodes at h1
              dsimp only at h1
              obtain ⟨e, he, hve⟩ := hpo _ _ _ _ h1 v hv
              exact buildChecks_vbn_mem p (initWorkingState p)
                (fun v2 => resNonneg v2.allocatedResource)
                (initWorkingState_byNode_nonneg p hnn)
                (initWorkingState p).nodeAvailableMap e he v hve
            have hev : ∀ v ∈ extraVictims, resNonneg v.allocatedResource := by
              intro v hv
              obtain ⟨e, he, hve⟩ := cav_mem p
                (initWorkingState p).queueByAlloc nodeVictims extraVictims h2
                v hv
              exact hnn e he v hve
            have hall : ∀ v ∈ nodeVictims ++ extraVictims,
                resNonneg v.allocatedResource := by
              intro v hv
              simp only [List.mem_append] at hv
              rcases hv with hv | hv
              · exact hnv v hv
              · exact hev v hv
            have hguardF : p.ask.allocatedResource.sgtOnlyExisting
                (finalFilter p.ask.allocatedResource
                  (((alookup (initWorkingState p).nodeAvailableMap
                    nodeID).getD Res.zero).fitIn p.ask.allocatedResource)
                  nodeID (nodeVictims ++ extraVictims) Res.zero []).2 =
                false := by
              simpa using hguard
            have hcovT : ∀ q ∈ p.ask.allocatedResource.res,
                p.ask.allocatedResource.get q.1 ≤
                  (finalFilter p.ask.allocatedResource
                    (((alookup (initWorkingState p).nodeAvailableMap
                      nodeID).getD Res.zero).fitIn p.ask.allocatedResource)
                    nodeID (nodeVictims ++ extraVictims) Res.zero []).2.get
                    q.1 := by
              intro q hq
              unfold Res.sgtOnlyExisting at hguardF
              have := List.any_eq_false.mp hguardF q hq
              simp at this
              omega
            have hinv := finalFilter_inv p.ask.allocatedResource
              (((alookup (initWorkingState p).nodeAvailableMap nodeID).getD
                Res.zero).fitIn p.ask.allocatedResource) nodeID
              (nodeVictims ++ extraVictims) Res.zero [] hall
              (by intro k; exact le_refl _)
              (Or.inr (fun k => rfl))
            rw [← hout]
            dsimp only
            refine ⟨nodeID, rfl, ?_, ?_⟩
            · intro q hq
              rcases hinv.2 with hcov | heq
              · exact hcov q hq
              · rw [heq q.1]
                exact hcovT q hq
            · intro hfitF v hv
              rw [hfitF] at hv
              exact finalFilter_nodes p.ask.allocatedResource nodeID
                (nodeVictims ++ extraVictims) Res.zero []
                (fun v2 hv2 => absurd hv2 (List.not_mem_nil v2)) v hv

/-- Auxiliary: the deterministic no-plugin coordinator only returns victims
drawn from its victims-by-node argument. -/
theorem noPluginOracle_provenance : oracleProvenance noPluginOracle := by
  intro checks vbn n vs h
  unfold noPluginOracle at h
  cases hs : stableSort predLess checks with
  | nil => rw [hs] at h; simp at h
  | cons c cs =>
    rw [hs] at h
    dsimp only at h
    cases hp : populateVictims vbn c.nodeID c.startIndex with
    | none => rw [hp] at h; simp at h
    | some vs2 =>
      rw [hp] at h
      simp only [Option.some_inj] at h
      rw [Prod.mk.injEq] at h
      obtain ⟨hn1, hv1⟩ := h
      subst hn1
      subst hv1
      intro v hv
      unfold populateVictims at hp
      cases hl : alookup vbn c.nodeID with
      | none => rw [hl] at hp; simp at hp
      | some l =>
        rw [hl] at hp
        dsimp only at hp
        by_cases hge : c.startIndex ≥ Int.ofNat l.length
        · rw [if_pos hge] at hp
          simp at hp
        · rw [if_neg hge] at hp
          have hps := Option.some.inj hp
          subst hps
          exact ⟨(c.nodeID, l), alookup_mem _ _ _ hl,
            List.mem_of_mem_take hv⟩

/-- Witness for C1 at the concrete success scenario with the no-plugin
coordinator: the single committed victim covers the 4 cpu ask. -/
theorem C1_shortfall_guard_w :
    arenaVictimsNonneg exPS2.allocationsByQueue ∧
      (TryPreemption exPS2 noPluginOracle).ok = true ∧
      exPS2.ask.allocatedResource.get "cpu" ≤
        (sumAllocs (TryPreemption exPS2 noPluginOracle).committed).get "cpu" := by
  refine ⟨by unfold arenaVictimsNonneg resNonneg; decide, rfl, ?_⟩
  obtain ⟨nodeID, hres, hcov, hnode⟩ := C1_shortfall_guard exPS2 noPluginOracle
    (TryPreemption exPS2 noPluginOracle)
    (by unfold arenaVictimsNonneg resNonneg; decide)
    noPluginOracle_provenance rfl rfl
  exact hcov ("cpu", 4) (by decide)

/-- Witness for C6: adding then removing cpu through the duplicate of a
two-snapshot arena leaves the original's allocated-resource cell (cell 4)
holding its original value. -/
theorem C6_duplicate_independent_w :
    arenaRefsBelow exStoreC6.cells.length exRArenaC6 ∧
      (applyOpsR (duplicateTreeR exStoreC6 exRArenaC6).2 exOpsC6
        (duplicateTreeR exStoreC6 exRArenaC6).1).read 4 = exStoreC6.read 4 :=
  ⟨by unfold arenaRefsBelow; decide,
    (C6_duplicate_independent exStoreC6 exRArenaC6
        (by unfold arenaRefsBelow; decide)).1 exOpsC6
      ("root.A", ⟨some "root", "root.A", 4, 5, 6, 7⟩) (by decide) 4 (by decide)⟩

end YK
